import Mathlib

/-!
# riscv-emu: shallow embedding and verification of the spec claims

This file embeds the core of the `riscv-emu` Go repository (a user-mode
RV64IMC emulator) in Lean 4 and settles the frozen claims about it.

Modelling conventions, used throughout:

* Go `uint64` values are naturals; arithmetic that wraps in Go carries an
  explicit `% 2^64`.  Bit masks with a low mask (`& 0x3f`, `& 0xfff`, ...)
  are written `% 64`, `% 4096`, ...; `x &^ 1` (clear the lowest bit) is
  written `x - x % 2`; `x &^ 7` is `x - x % 8`.  Where the Go expression
  provably cannot wrap (byte sums, the 32x32 partial products) no `%` is
  inserted.
* Go `int64`/`int32` views of a word are taken with `toInt64`/`toInt32`,
  and a signed result is stored back with `ofInt64` (the `uint64(...)`
  conversion).  Signed division/remainder is truncated (`Int.tdiv`,
  `Int.tmod`); an arithmetic right shift is a floor division
  (`Int.fdiv`); `int32` arithmetic that wraps goes through `wrap32`.
* Memory is a list of byte values.  A Go index-out-of-range or
  division-by-zero panic is modelled by the `panic` result constructor;
  other runtime errors returned as Go `error` values are the `err`
  constructor.  The register and CSR files are total functions `Nat → Nat`
  (the Go arrays), updated pointwise.
* The host `write` syscall is modelled as succeeding completely
  (`fmt.Fprint` returns the requested count).
* Guest memory allocation (`make([]byte, n)`) is modelled as always
  succeeding; theorems about the stack initializer carry the hypothesis
  that the computed size does not exceed the `uint64` range, which is the
  regime in which any Go allocation can exist at all.
-/

namespace RiscvEmu

/-- Register-file index of the stack pointer (pty.go `SP`). -/
def SP : Nat := 2

/-- Register-file index of the return address (pty.go `RA`). -/
def RA : Nat := 1

/-- Register-file index of the hard-wired zero register (pty.go `Zero`). -/
def Zero : Nat := 0

/-- CSR number of RDCYCLE (pty.go). -/
def RDCYCLE : Nat := 1

/-- CSR number of RDTIME (pty.go). -/
def RDTIME : Nat := 2

/-- CSR number of RDINSTRET (pty.go). -/
def RDINSTRET : Nat := 3

/-- The `int64` view of a 64-bit word (two's complement). Go `int64(v)`. -/
def toInt64 (v : Nat) : Int :=
  if v % 2^64 < 2^63 then ((v % 2^64 : Nat) : Int) else ((v % 2^64 : Nat) : Int) - 2^64

/-- The `int32` view of the low 32 bits of a word. Go `int32(v)`. -/
def toInt32 (v : Nat) : Int :=
  if v % 2^32 < 2^31 then ((v % 2^32 : Nat) : Int) else ((v % 2^32 : Nat) : Int) - 2^32

/-- Store a signed value in a 64-bit register: Go `uint64(i)` of a signed
value, i.e. the value modulo `2^64`. -/
def ofInt64 (i : Int) : Nat := (i % (2^64 : Int)).toNat

/-- Two's-complement wrap-around of `int32` arithmetic. -/
def wrap32 (i : Int) : Int := (i + 2^31) % 2^32 - 2^31

/-- sign.go `signExtend`: replicate the given bit (counting from 0) into all
higher bit positions of a 64-bit word.  When the bit is set, Go computes
`v | (MaxUint64 << bit)`; for `v < 2^64` that OR is the sum below, because
the mask holds exactly the bits from `bit` up. -/
def signExtend (v : Nat) (bit : Nat) : Nat :=
  if v / 2^bit % 2 = 1 then 2^64 - 2^bit + v % 2^bit else v

/-- Read a byte of memory; Go panics out of range, callers bounds-check. -/
def mget (m : List Nat) (i : Nat) : Nat := m.getD i 0

/-- Write `k` little-endian bytes of `v` at `a`: the `k` explicit byte
assignments `m[a+j] = byte(v >> 8j)` of pty.go `pushUint64` / rvi.go
`sh`/`sw`/`sd`. -/
def setLE (m : List Nat) (a v : Nat) : Nat → List Nat
  | 0 => m
  | k + 1 => setLE (m.set a (v % 256)) (a + 1) (v / 256) k

/-- Write the given bytes at consecutive addresses starting at `a`
(the byte-copy loop of pty.go `pushCString`). -/
def setBytes (m : List Nat) (a : Nat) : List Nat → List Nat
  | [] => m
  | b :: bs => setBytes (m.set a b) (a + 1) bs

/-- pty.go `VM.Memory`: the little-endian 64-bit word at `addr` (the Go
byte ORs are sums because the summands occupy disjoint bit ranges). -/
def readW (m : List Nat) (a : Nat) : Nat :=
  mget m a + 2^8 * mget m (a+1) + 2^16 * mget m (a+2) + 2^24 * mget m (a+3) +
  2^32 * mget m (a+4) + 2^40 * mget m (a+5) + 2^48 * mget m (a+6) + 2^56 * mget m (a+7)

/-- The operation discriminator: which handler function the decoder put in
`Instruction.fn` (Go stores a function pointer; we name them). -/
inductive Fn where
  | lui | auipc | jal | jalr | beq | bne | blt | bge | bltu | bgeu
  | lb | lh | lw | lbu | lhu | sb | sh | sw
  | addi | slti | sltiu | xori | ori | andi
  | add | sub | sll | slt | sltu | xor | srl | sra | or | and
  | fence | fence_i | ecallOrBreak | ebreak
  | csrrw | csrrs | csrrc | csrrwi | csrrsi | csrrci
  | lwu | ld | sd | slli | shiftRight
  | srli | srai
  | addiw | slliw | srliw | sraiw | addw | subw | sllw | srlw | sraw
  | mul | mulh | mulhsu | mulhu | mulw
  | div | divu | divw | divuw | rem | remu | remw | remuw
  | rvcJAL | rvcJALR
  deriving DecidableEq, Repr

/-- pty.go `Instruction`. `inBits` is the raw encoding (Go field `in`). -/
structure Instruction where
  fn : Fn
  rs1 : Nat := 0
  rs2 : Nat := 0
  rd : Nat := 0
  imm : Nat := 0
  inBits : Nat := 0
  deriving DecidableEq, Repr

/-- pty.go `flags`, returned by every handler. -/
structure Flags where
  updatedPC : Bool := false
  updatedRDINSTRET : Bool := false
  deriving DecidableEq, Repr

/-- pty.go `VM` (the debug fields and `LastInstr` carry no semantics). -/
structure VM where
  Reg : Nat → Nat
  CSR : Nat → Nat
  PC : Nat
  Steps : Nat
  Mem : List Nat
  LastPC : Nat := 0

/-- pty.go `VM.store`: writes to register 0 are silently discarded. -/
def VM.store (vm : VM) (rd val : Nat) : VM :=
  if rd = 0 then vm
  else { vm with Reg := fun r => if r = rd then val else vm.Reg r }

/-- Pointwise CSR update (a Go array assignment `vm.CSR[i] = v`). -/
def VM.csrSet (vm : VM) (idx v : Nat) : VM :=
  { vm with CSR := fun j => if j = idx then v else vm.CSR j }

/-- Result of running one handler: Go's `(flags, error)` return, plus
`panic` for Go runtime panics.  `err` records whether the error is the
`exit` signal. -/
inductive HRes where
  | ok (vm : VM) (f : Flags)
  | err (vm : VM) (isExit : Bool)
  | panic

/-- The machine state a handler result leaves behind (`panic` has none). -/
def HRes.stateOf : HRes → Option VM
  | .ok vm _ => some vm
  | .err vm _ => some vm
  | .panic => none

end RiscvEmu

namespace RiscvEmu

/-! ## rvi.go: the operation handlers -/

def lui (vm : VM) (i : Instruction) : HRes :=
  .ok (vm.store i.rd (signExtend i.imm 31)) {}

def auipc (vm : VM) (i : Instruction) : HRes :=
  .ok (vm.store i.rd (signExtend ((i.imm + vm.PC) % 2^64) 31)) {}

def jal (vm : VM) (i : Instruction) : HRes :=
  let vm1 := vm.store i.rd ((vm.PC + 4) % 2^64)
  .ok { vm1 with PC := (signExtend i.imm 19 + vm.PC) % 2^64 } { updatedPC := true }

def jalr (vm : VM) (i : Instruction) : HRes :=
  let vm1 := vm.store i.rd ((vm.PC + 4) % 2^64)
  let t := (signExtend i.imm 12 + vm.Reg i.rs1) % 2^64
  .ok { vm1 with PC := t - t % 2 } { updatedPC := true }

def beq (vm : VM) (i : Instruction) : HRes :=
  if vm.Reg i.rs1 = vm.Reg i.rs2 then
    .ok { vm with PC := (vm.PC + signExtend i.imm 12) % 2^64 } { updatedPC := true }
  else .ok vm {}

def bne (vm : VM) (i : Instruction) : HRes :=
  if vm.Reg i.rs1 ≠ vm.Reg i.rs2 then
    .ok { vm with PC := (vm.PC + signExtend i.imm 12) % 2^64 } { updatedPC := true }
  else .ok vm {}

def blt (vm : VM) (i : Instruction) : HRes :=
  if toInt64 (vm.Reg i.rs1) < toInt64 (vm.Reg i.rs2) then
    .ok { vm with PC := (vm.PC + signExtend i.imm 12) % 2^64 } { updatedPC := true }
  else .ok vm {}

def bge (vm : VM) (i : Instruction) : HRes :=
  if toInt64 (vm.Reg i.rs2) ≤ toInt64 (vm.Reg i.rs1) then
    .ok { vm with PC := (vm.PC + signExtend i.imm 12) % 2^64 } { updatedPC := true }
  else .ok vm {}

def bltu (vm : VM) (i : Instruction) : HRes :=
  if vm.Reg i.rs1 < vm.Reg i.rs2 then
    .ok { vm with PC := (vm.PC + signExtend i.imm 12) % 2^64 } { updatedPC := true }
  else .ok vm {}

def bgeu (vm : VM) (i : Instruction) : HRes :=
  if vm.Reg i.rs2 ≤ vm.Reg i.rs1 then
    .ok { vm with PC := (vm.PC + signExtend i.imm 12) % 2^64 } { updatedPC := true }
  else .ok vm {}

def lb (vm : VM) (i : Instruction) : HRes :=
  let a := (vm.Reg i.rs1 + signExtend i.imm 11) % 2^64
  if a < vm.Mem.length then .ok (vm.store i.rd (signExtend (mget vm.Mem a) 7)) {}
  else .panic

def lh (vm : VM) (i : Instruction) : HRes :=
  let a := (vm.Reg i.rs1 + signExtend i.imm 11) % 2^64
  if a + 2 ≤ vm.Mem.length then
    .ok (vm.store i.rd (signExtend (mget vm.Mem a + 2^8 * mget vm.Mem (a+1)) 15)) {}
  else .panic

def lw (vm : VM) (i : Instruction) : HRes :=
  let a := (vm.Reg i.rs1 + signExtend i.imm 11) % 2^64
  if a + 4 ≤ vm.Mem.length then
    .ok (vm.store i.rd (signExtend (mget vm.Mem a + 2^8 * mget vm.Mem (a+1) +
      2^16 * mget vm.Mem (a+2) + 2^24 * mget vm.Mem (a+3)) 31)) {}
  else .panic

def lbu (vm : VM) (i : Instruction) : HRes :=
  let a := (vm.Reg i.rs1 + signExtend i.imm 11) % 2^64
  if a < vm.Mem.length then .ok (vm.store i.rd (mget vm.Mem a)) {}
  else .panic

def lhu (vm : VM) (i : Instruction) : HRes :=
  let a := (vm.Reg i.rs1 + signExtend i.imm 11) % 2^64
  if a + 2 ≤ vm.Mem.length then
    .ok (vm.store i.rd (mget vm.Mem a + 2^8 * mget vm.Mem (a+1))) {}
  else .panic

def sb (vm : VM) (i : Instruction) : HRes :=
  let a := (vm.Reg i.rs1 + signExtend i.imm 11) % 2^64
  if a < vm.Mem.length then
    .ok { vm with Mem := vm.Mem.set a (vm.Reg i.rs2 % 256) } {}
  else .panic

def sh (vm : VM) (i : Instruction) : HRes :=
  let a := (vm.Reg i.rs1 + signExtend i.imm 11) % 2^64
  if a + 2 ≤ vm.Mem.length then
    .ok { vm with Mem := setLE vm.Mem a (vm.Reg i.rs2) 2 } {}
  else .panic

def sw (vm : VM) (i : Instruction) : HRes :=
  let a := (vm.Reg i.rs1 + signExtend i.imm 11) % 2^64
  if a + 4 ≤ vm.Mem.length then
    .ok { vm with Mem := setLE vm.Mem a (vm.Reg i.rs2) 4 } {}
  else .panic

def addi (vm : VM) (i : Instruction) : HRes :=
  -- Go: uint64(int64(Reg rs1) + int64(signExtend(imm & 0xfff, 11))),
  -- a wrap-around 64-bit addition.
  .ok (vm.store i.rd ((vm.Reg i.rs1 + signExtend (i.imm % 4096) 11) % 2^64)) {}

def slti (vm : VM) (i : Instruction) : HRes :=
  if toInt64 (vm.Reg i.rs1) < toInt64 (signExtend i.imm 11) then
    .ok (vm.store i.rd 1) {}
  else .ok (vm.store i.rd 0) {}

def sltiu (vm : VM) (i : Instruction) : HRes :=
  -- Go compares the raw decoded immediate; there is no sign extension here.
  if vm.Reg i.rs1 < i.imm then .ok (vm.store i.rd 1) {}
  else .ok (vm.store i.rd 0) {}

def xori (vm : VM) (i : Instruction) : HRes :=
  .ok (vm.store i.rd (vm.Reg i.rs1 ^^^ signExtend i.imm 11)) {}

def ori (vm : VM) (i : Instruction) : HRes :=
  .ok (vm.store i.rd (vm.Reg i.rs1 ||| signExtend i.imm 11)) {}

def andi (vm : VM) (i : Instruction) : HRes :=
  .ok (vm.store i.rd (vm.Reg i.rs1 &&& signExtend i.imm 11)) {}

def add (vm : VM) (i : Instruction) : HRes :=
  .ok (vm.store i.rd ((vm.Reg i.rs1 + vm.Reg i.rs2) % 2^64)) {}

def sub (vm : VM) (i : Instruction) : HRes :=
  -- Go uint64 subtraction wraps modulo 2^64.
  .ok (vm.store i.rd ((vm.Reg i.rs1 % 2^64 + (2^64 - vm.Reg i.rs2 % 2^64)) % 2^64)) {}

def sll (vm : VM) (i : Instruction) : HRes :=
  .ok (vm.store i.rd ((vm.Reg i.rs1 <<< (vm.Reg i.rs2 % 64)) % 2^64)) {}

def slt (vm : VM) (i : Instruction) : HRes :=
  if toInt64 (vm.Reg i.rs1) < toInt64 (vm.Reg i.rs2) then .ok (vm.store i.rd 1) {}
  else .ok (vm.store i.rd 0) {}

def sltu (vm : VM) (i : Instruction) : HRes :=
  if vm.Reg i.rs1 < vm.Reg i.rs2 then .ok (vm.store i.rd 1) {}
  else .ok (vm.store i.rd 0) {}

def xor (vm : VM) (i : Instruction) : HRes :=
  .ok (vm.store i.rd (vm.Reg i.rs1 ^^^ vm.Reg i.rs2)) {}

def srl (vm : VM) (i : Instruction) : HRes :=
  .ok (vm.store i.rd (vm.Reg i.rs1 >>> (vm.Reg i.rs2 % 64))) {}

def sra (vm : VM) (i : Instruction) : HRes :=
  -- Go: uint64(int64(Reg rs1) >> (Reg rs2 & 0x3f)); the arithmetic shift
  -- is a floor division of the signed view.
  .ok (vm.store i.rd (ofInt64 ((toInt64 (vm.Reg i.rs1)).fdiv (2^(vm.Reg i.rs2 % 64))))) {}

def or (vm : VM) (i : Instruction) : HRes :=
  .ok (vm.store i.rd (vm.Reg i.rs1 ||| vm.Reg i.rs2)) {}

def and (vm : VM) (i : Instruction) : HRes :=
  .ok (vm.store i.rd (vm.Reg i.rs1 &&& vm.Reg i.rs2)) {}

def fence (vm : VM) (_ : Instruction) : HRes := .ok vm {}

def fence_i (vm : VM) (_ : Instruction) : HRes := .ok vm {}

def ebreak (vm : VM) (_ : Instruction) : HRes := .ok vm {}

def ecall (vm : VM) (_ : Instruction) : HRes :=
  match vm.Reg 17 with            -- a7
  | 0x5D => .err vm true          -- exit: rvi.go returns exitErr
  | 0x40 =>                       -- write
    if vm.Reg 10 = 1 ∨ vm.Reg 10 = 2 then   -- fd = a0 must be stdout/stderr
      let buf := vm.Reg 11
      let n := vm.Reg 12
      if buf + n ≤ vm.Mem.length then
        -- host write modeled as complete: Fprint returns the byte count
        .ok (vm.store 10 n) {}
      else .panic
    else .err vm false            -- unrecognized fd
  | _ => .err vm false            -- unrecognized ecall

def ecallOrBreak (vm : VM) (i : Instruction) : HRes :=
  match i.imm >>> 12 with
  | 0 => ecall vm i
  | 1 => ebreak vm i
  | _ => .panic

def csrrw (vm : VM) (i : Instruction) : HRes :=
  if i.imm < 2^11 then            -- the Go CSR array has 1<<11 entries
    if i.rd = 0 then
      let vm1 := vm.csrSet i.imm (vm.Reg i.rs1)
      if i.imm = RDINSTRET then .ok vm1 { updatedRDINSTRET := true }
      else .ok vm1 {}
    else
      let v := vm.CSR i.imm
      .ok ((vm.csrSet i.imm (vm.Reg i.rs1)).store i.rd v) {}
  else .panic

def csrrs (vm : VM) (i : Instruction) : HRes :=
  if i.imm < 2^11 then
    let v := vm.CSR i.imm
    let vm1 := if i.rs1 ≠ 0 then vm.csrSet i.imm (vm.CSR i.imm ||| vm.Reg i.rs1) else vm
    .ok (vm1.store i.rd v) {}
  else .panic

def csrrc (vm : VM) (i : Instruction) : HRes :=
  if i.imm < 2^11 then
    let v := vm.CSR i.imm
    -- Go &^: clear in the CSR the bits set in Reg rs1
    let vm1 := if i.rs1 ≠ 0 then vm.csrSet i.imm (Nat.ldiff (vm.CSR i.imm) (vm.Reg i.rs1)) else vm
    .ok (vm1.store i.rd v) {}
  else .panic

def csrrwi (vm : VM) (i : Instruction) : HRes :=
  if i.imm < 2^11 then
    let uimm := signExtend (i.rs1 % 32) 4
    if i.rd = 0 then .ok (vm.csrSet i.imm uimm) {}
    else
      let v := vm.CSR i.imm
      .ok ((vm.csrSet i.imm uimm).store i.rd v) {}
  else .panic

def csrrsi (vm : VM) (i : Instruction) : HRes :=
  if i.imm < 2^11 then
    let uimm := signExtend (i.rs1 % 32) 4
    let v := vm.CSR i.imm
    let vm1 := if uimm ≠ 0 then vm.csrSet i.imm (vm.CSR i.imm ||| uimm) else vm
    .ok (vm1.store i.rd v) {}
  else .panic

def csrrci (vm : VM) (i : Instruction) : HRes :=
  if i.imm < 2^11 then
    let uimm := signExtend (i.rs1 % 32) 4
    let v := vm.CSR i.imm
    let vm1 := if uimm ≠ 0 then vm.csrSet i.imm (Nat.ldiff (vm.CSR i.imm) uimm) else vm
    .ok (vm1.store i.rd v) {}
  else .panic

def lwu (vm : VM) (i : Instruction) : HRes :=
  let a := (vm.Reg i.rs1 + signExtend i.imm 11) % 2^64
  if a + 4 ≤ vm.Mem.length then
    .ok (vm.store i.rd (mget vm.Mem a + 2^8 * mget vm.Mem (a+1) +
      2^16 * mget vm.Mem (a+2) + 2^24 * mget vm.Mem (a+3))) {}
  else .panic

def ld (vm : VM) (i : Instruction) : HRes :=
  let a := (vm.Reg i.rs1 + signExtend i.imm 11) % 2^64
  if a + 8 ≤ vm.Mem.length then .ok (vm.store i.rd (readW vm.Mem a)) {}
  else .panic

def sd (vm : VM) (i : Instruction) : HRes :=
  let a := (vm.Reg i.rs1 + signExtend i.imm 11) % 2^64
  if a + 8 ≤ vm.Mem.length then
    .ok { vm with Mem := setLE vm.Mem a (vm.Reg i.rs2) 8 } {}
  else .panic

def slli (vm : VM) (i : Instruction) : HRes :=
  .ok (vm.store i.rd ((vm.Reg i.rs1 <<< (i.imm % 64)) % 2^64)) {}

def srli (vm : VM) (i : Instruction) : HRes :=
  .ok (vm.store i.rd (vm.Reg i.rs1 >>> (i.imm % 64))) {}

def srai (vm : VM) (i : Instruction) : HRes :=
  .ok (vm.store i.rd (ofInt64 ((toInt64 (vm.Reg i.rs1)).fdiv (2^(i.imm % 64))))) {}

def shiftRight (vm : VM) (i : Instruction) : HRes :=
  -- rvi.go switches on `in.imm & 0xFC00` with cases 0x00 and 0x10.
  match i.imm &&& 0xFC00 with
  | 0x00 => srli vm i
  | 0x10 => srai vm i
  | _ => .panic                   -- Go: panic("invalid instruction")

def addiw (vm : VM) (i : Instruction) : HRes :=
  .ok (vm.store i.rd (ofInt64 (wrap32 (toInt32 (vm.Reg i.rs1) +
    toInt32 (signExtend (i.imm % 4096) 11))))) {}

def slliw (vm : VM) (i : Instruction) : HRes :=
  .ok (vm.store i.rd (signExtend ((vm.Reg i.rs1 % 2^32) <<< (i.imm % 32) % 2^32) 31)) {}

def srliw (vm : VM) (i : Instruction) : HRes :=
  .ok (vm.store i.rd (signExtend ((vm.Reg i.rs1 % 2^32) >>> (i.imm % 32)) 31)) {}

def sraiw (vm : VM) (i : Instruction) : HRes :=
  .ok (vm.store i.rd (ofInt64 ((toInt32 (vm.Reg i.rs1)).fdiv (2^(i.imm % 32))))) {}

def addw (vm : VM) (i : Instruction) : HRes :=
  .ok (vm.store i.rd (ofInt64 (wrap32 (toInt32 (vm.Reg i.rs1) + toInt32 (vm.Reg i.rs2))))) {}

def subw (vm : VM) (i : Instruction) : HRes :=
  .ok (vm.store i.rd (ofInt64 (wrap32 (toInt32 (vm.Reg i.rs1) - toInt32 (vm.Reg i.rs2))))) {}

def sllw (vm : VM) (i : Instruction) : HRes :=
  .ok (vm.store i.rd (signExtend ((vm.Reg i.rs1 % 2^32) <<< (vm.Reg i.rs2 % 32) % 2^32) 31)) {}

def srlw (vm : VM) (i : Instruction) : HRes :=
  .ok (vm.store i.rd (signExtend ((vm.Reg i.rs1 % 2^32) >>> (vm.Reg i.rs2 % 32)) 31)) {}

def sraw (vm : VM) (i : Instruction) : HRes :=
  .ok (vm.store i.rd (ofInt64 ((toInt32 (vm.Reg i.rs1)).fdiv (2^(vm.Reg i.rs2 % 32))))) {}

def mul (vm : VM) (i : Instruction) : HRes :=
  .ok (vm.store i.rd (ofInt64 (toInt64 (vm.Reg i.rs1) * toInt64 (vm.Reg i.rs2)))) {}

/-- rvi.go `mulh`: high 64-bit word via 32x32 partial products on the
magnitudes, negating at the end when the signs differ.  Go negates a
negative operand in place; in two's complement that yields the absolute
value as a `uint64`, also at the minimum, hence `Int.natAbs`.  None of the
partial sums can exceed `2^64`, so no wrap is inserted; the final uint64
negation `-v` is `(2^64 - v % 2^64) % 2^64`. -/
def mulh (vm : VM) (i : Instruction) : HRes :=
  let n1 := toInt64 (vm.Reg i.rs1)
  let n2 := toInt64 (vm.Reg i.rs2)
  let m1 := n1.natAbs
  let m2 := n2.natAbs
  let ah := m1 / 2^32
  let al := m1 % 2^32
  let bh := m2 / 2^32
  let bl := m2 % 2^32
  let a := ah * bh
  let b := ah * bl
  let c := al * bh
  let d := al * bl
  let v := a + b / 2^32 + c / 2^32 + (d / 2^32 + b % 2^32 + c % 2^32) / 2^32
  let v' := if (decide (n1 < 0)) ≠ (decide (n2 < 0)) then (2^64 - v % 2^64) % 2^64 else v
  .ok (vm.store i.rd v') {}

/-- rvi.go `mulhsu`: as `mulh` but the second operand is unsigned. -/
def mulhsu (vm : VM) (i : Instruction) : HRes :=
  let n1 := toInt64 (vm.Reg i.rs1)
  let m1 := n1.natAbs
  let n2 := vm.Reg i.rs2 % 2^64
  let ah := m1 / 2^32
  let al := m1 % 2^32
  let bh := n2 / 2^32
  let bl := n2 % 2^32
  let a := ah * bh
  let b := ah * bl
  let c := al * bh
  let d := al * bl
  let v := a + b / 2^32 + c / 2^32 + (d / 2^32 + b % 2^32 + c % 2^32) / 2^32
  let v' := if n1 < 0 then (2^64 - v % 2^64) % 2^64 else v
  .ok (vm.store i.rd v') {}

/-- rvi.go `mulhu`: unsigned high word via the same partial products. -/
def mulhu (vm : VM) (i : Instruction) : HRes :=
  let n1 := vm.Reg i.rs1 % 2^64
  let n2 := vm.Reg i.rs2 % 2^64
  let ah := n1 / 2^32
  let al := n1 % 2^32
  let bh := n2 / 2^32
  let bl := n2 % 2^32
  let a := ah * bh
  let b := ah * bl
  let c := al * bh
  let d := al * bl
  let v := a + b / 2^32 + c / 2^32 + (d / 2^32 + b % 2^32 + c % 2^32) / 2^32
  .ok (vm.store i.rd v) {}

def mulw (vm : VM) (i : Instruction) : HRes :=
  .ok (vm.store i.rd (ofInt64 (wrap32 (toInt32 (vm.Reg i.rs1) * toInt32 (vm.Reg i.rs2))))) {}

def div (vm : VM) (i : Instruction) : HRes :=
  if vm.Reg i.rs2 = 0 then .ok (vm.store i.rd (2^64 - 1)) {}
  else .ok (vm.store i.rd (ofInt64 ((toInt64 (vm.Reg i.rs1)).tdiv (toInt64 (vm.Reg i.rs2))))) {}

def divu (vm : VM) (i : Instruction) : HRes :=
  if vm.Reg i.rs2 = 0 then .ok (vm.store i.rd (2^64 - 1)) {}
  else .ok (vm.store i.rd (vm.Reg i.rs1 % 2^64 / (vm.Reg i.rs2 % 2^64))) {}

def divw (vm : VM) (i : Instruction) : HRes :=
  if toInt32 (vm.Reg i.rs2) = 0 then .ok (vm.store i.rd (2^64 - 1)) {}
  else .ok (vm.store i.rd (signExtend
    (ofInt64 (wrap32 ((toInt32 (vm.Reg i.rs1)).tdiv (toInt32 (vm.Reg i.rs2))))) 31)) {}

def divuw (vm : VM) (i : Instruction) : HRes :=
  if vm.Reg i.rs2 % 2^32 = 0 then .ok (vm.store i.rd (2^64 - 1)) {}
  else .ok (vm.store i.rd (signExtend (vm.Reg i.rs1 % 2^32 / (vm.Reg i.rs2 % 2^32)) 31)) {}

def rem (vm : VM) (i : Instruction) : HRes :=
  if vm.Reg i.rs2 = 0 then .ok (vm.store i.rd (vm.Reg i.rs1)) {}
  else .ok (vm.store i.rd (ofInt64 ((toInt64 (vm.Reg i.rs1)).tmod (toInt64 (vm.Reg i.rs2))))) {}

def remu (vm : VM) (i : Instruction) : HRes :=
  if vm.Reg i.rs2 = 0 then .ok (vm.store i.rd (vm.Reg i.rs1)) {}
  else .ok (vm.store i.rd (vm.Reg i.rs1 % 2^64 % (vm.Reg i.rs2 % 2^64))) {}

/-- rvi.go `remw`.  The divisor-zero test is on the full 64-bit register;
when it fails but the low 32 bits of the divisor are zero, the Go `int32`
remainder panics with a division by zero. -/
def remw (vm : VM) (i : Instruction) : HRes :=
  if vm.Reg i.rs2 = 0 then .ok (vm.store i.rd (vm.Reg i.rs1)) {}
  else if toInt32 (vm.Reg i.rs2) = 0 then .panic
  else .ok (vm.store i.rd (ofInt64 ((toInt32 (vm.Reg i.rs1)).tmod (toInt32 (vm.Reg i.rs2))))) {}

/-- rvi.go `remuw`: same full-64-bit zero test; the non-zero path sign
extends the 32-bit remainder. -/
def remuw (vm : VM) (i : Instruction) : HRes :=
  if vm.Reg i.rs2 = 0 then .ok (vm.store i.rd (vm.Reg i.rs1)) {}
  else if vm.Reg i.rs2 % 2^32 = 0 then .panic
  else .ok (vm.store i.rd (signExtend (vm.Reg i.rs1 % 2^32 % (vm.Reg i.rs2 % 2^32)) 31)) {}

/-! ## rvc.go: compressed jump helpers -/

def rvcJAL (vm : VM) (i : Instruction) : HRes :=
  let vm1 := vm.store i.rd ((vm.PC + 2) % 2^64)
  .ok { vm1 with PC := (i.imm + vm.PC) % 2^64 } { updatedPC := true }

def rvcJALR (vm : VM) (i : Instruction) : HRes :=
  let vm1 := vm.store i.rd ((vm.PC + 2) % 2^64)
  let t := (i.imm + vm.Reg i.rs1) % 2^64
  .ok { vm1 with PC := t - t % 2 } { updatedPC := true }

/-- Dispatch on the decoded operation: the Go function-pointer call
`in.fn(vm, in)`. -/
def execFn : Fn → VM → Instruction → HRes
  | .lui => lui | .auipc => auipc | .jal => jal | .jalr => jalr
  | .beq => beq | .bne => bne | .blt => blt | .bge => bge
  | .bltu => bltu | .bgeu => bgeu
  | .lb => lb | .lh => lh | .lw => lw | .lbu => lbu | .lhu => lhu
  | .sb => sb | .sh => sh | .sw => sw
  | .addi => addi | .slti => slti | .sltiu => sltiu
  | .xori => xori | .ori => ori | .andi => andi
  | .add => add | .sub => sub | .sll => sll | .slt => slt | .sltu => sltu
  | .xor => xor | .srl => srl | .sra => sra | .or => or | .and => and
  | .fence => fence | .fence_i => fence_i
  | .ecallOrBreak => ecallOrBreak | .ebreak => ebreak
  | .csrrw => csrrw | .csrrs => csrrs | .csrrc => csrrc
  | .csrrwi => csrrwi | .csrrsi => csrrsi | .csrrci => csrrci
  | .lwu => lwu | .ld => ld | .sd => sd
  | .slli => slli | .shiftRight => shiftRight | .srli => srli | .srai => srai
  | .addiw => addiw | .slliw => slliw | .srliw => srliw | .sraiw => sraiw
  | .addw => addw | .subw => subw | .sllw => sllw | .srlw => srlw | .sraw => sraw
  | .mul => mul | .mulh => mulh | .mulhsu => mulhsu | .mulhu => mulhu | .mulw => mulw
  | .div => div | .divu => divu | .divw => divw | .divuw => divuw
  | .rem => rem | .remu => remu | .remw => remw | .remuw => remuw
  | .rvcJAL => rvcJAL | .rvcJALR => rvcJALR

/-! ## rvc.go: the compressed decoder -/

/-- rvc.go `rvcRegOffset`: maps 3-bit RVC register fields to x8..x15. -/
def rvcRegOffset : Nat := 8

def decodeCR (w : Nat) : Nat × Nat :=
  ((w >>> 7) &&& 0x1f, (w >>> 2) &&& 0x1f)

def decodeCI (w : Nat) : Nat × Nat :=
  (((w >>> 7) &&& 0x20) ||| ((w >>> 2) &&& 0x1f), (w >>> 7) &&& 0x1f)

def decodeCSS (w : Nat) : Nat × Nat :=
  ((w >>> 7) &&& 0x3f, (w >>> 2) &&& 0x1f)

def decodeCIW (w : Nat) : Nat × Nat :=
  ((w >>> 5) &&& 0xff, ((w >>> 2) &&& 0x7) + rvcRegOffset)

def decodeCL (w : Nat) : Nat × Nat × Nat :=
  (((w >>> 8) &&& 0x1c) ||| ((w >>> 5) &&& 0x3),
   ((w >>> 7) &&& 0x7) + rvcRegOffset, ((w >>> 2) &&& 0x7) + rvcRegOffset)

def decodeCS (w : Nat) : Nat × Nat × Nat :=
  (((w >>> 8) &&& 0x1c) ||| ((w >>> 5) &&& 0x3),
   ((w >>> 7) &&& 0x7) + rvcRegOffset, ((w >>> 2) &&& 0x7) + rvcRegOffset)

def decodeCB (w : Nat) : Nat × Nat :=
  (((w >>> 5) &&& 0xe0) ||| ((w >>> 2) &&& 0x1f), ((w >>> 7) &&& 0x7) + rvcRegOffset)

def decodeShiftCB (w : Nat) : Nat × Nat :=
  (((w &&& 0x1000) >>> 7) ||| ((w >>> 2) &&& 0x1f), ((w >>> 7) &&& 0x7) + rvcRegOffset)

def decodeCJ (w : Nat) : Nat := (w >>> 2) &&& 0x7ff

/-- Result of decoding a compressed instruction: an instruction, a Go
`error` return, or a Go panic (unsupported extensions, reserved forms). -/
inductive RvcRes where
  | ok (i : Instruction)
  | err
  | panic

/-- rvc.go `rvcDecode`, case for case.  The primary selector is
`in>>11&0x1c | in&0x3`. -/
def rvcDecode (w : Nat) : RvcRes :=
  if w = 0 then .err else       -- illegal instruction 0x0
  match ((w >>> 11) &&& 0x1c) ||| (w &&& 0x3) with
  | 0x00 =>                     -- C.ADDI4SPN
    let (imm, r) := decodeCIW w
    let imm := ((imm &&& 0xc0) >>> 2) ||| ((imm &&& 0x3c) <<< 4) |||
               ((imm &&& 0x2) <<< 1) ||| ((imm &&& 0x1) <<< 3)
    .ok { fn := .addi, rd := r, rs1 := SP, imm := imm }
  | 0x04 => .panic              -- C.FLD unsupported
  | 0x08 =>                     -- C.LW
    let (imm, r1, r2) := decodeCL w
    let imm := (((imm <<< 5) ||| imm) &&& 0x3e) <<< 1
    .ok { fn := .lw, rd := r2, rs1 := r1, imm := imm }
  | 0x0C =>                     -- C.LD
    let (imm, r1, r2) := decodeCL w
    let imm := ((imm <<< 6) ||| (imm <<< 1)) &&& 0xf8
    .ok { fn := .ld, rd := r2, rs1 := r1, imm := imm }
  | 0x10 => .panic              -- reserved
  | 0x14 => .panic              -- C.FSD unsupported
  | 0x18 =>                     -- C.SW
    let (imm, r1, r2) := decodeCS w
    let imm := (((imm <<< 5) ||| imm) <<< 1) &&& 0x7c
    .ok { fn := .sw, rs2 := r2, rs1 := r1, imm := imm }
  | 0x1C =>                     -- C.SD
    let (imm, r1, r2) := decodeCS w
    let imm := (((imm <<< 5) ||| imm) <<< 1) &&& 0xf8
    .ok { fn := .sd, rs2 := r2, rs1 := r1, imm := imm }
  | 0x01 =>                     -- C.NOP / C.ADDI
    let (imm, r) := decodeCI w
    .ok { fn := .addi, rd := r, rs1 := r, imm := signExtend imm 5 }
  | 0x05 =>                     -- C.ADDIW (RV64)
    let (imm, r) := decodeCI w
    .ok { fn := .addiw, rd := r, rs1 := r, imm := signExtend imm 5 }
  | 0x09 =>                     -- C.LI
    let (imm, r) := decodeCI w
    .ok { fn := .addi, imm := signExtend imm 5, rd := r, rs1 := Zero }
  | 0x0D =>                     -- C.ADDI16SP / C.LUI
    let (imm, r) := decodeCI w
    if r ≠ 2 then
      .ok { fn := .lui, rd := r, imm := signExtend (imm <<< 12) 17 }
    else
      let imm := signExtend (((imm &&& 0x20) <<< 4) ||| (imm &&& 0x10) |||
        ((imm &&& 0x8) <<< 3) ||| ((imm &&& 0x6) <<< 6) ||| ((imm &&& 0x1) <<< 5)) 9
      .ok { fn := .addi, rd := SP, rs1 := SP, imm := imm }
  | 0x11 =>
    match (w >>> 10) &&& 0x3 with
    | 0x00 =>                   -- C.SRLI
      let (imm, r) := decodeShiftCB w
      .ok { fn := .srli, rd := r, rs1 := r, imm := imm }
    | 0x01 =>                   -- C.SRAI
      let (imm, r) := decodeShiftCB w
      .ok { fn := .srai, rd := r, rs1 := r, imm := imm }
    | 0x02 =>                   -- C.ANDI
      let (imm, r) := decodeShiftCB w
      .ok { fn := .andi, rd := r, rs1 := r, imm := imm }
    | _ =>
      let (_, r1, r2) := decodeCS w
      match ((w >>> 8) &&& 0x1c) ||| ((w >>> 5) &&& 0x3) with
      | 0xc => .ok { fn := .sub, rd := r1, rs1 := r1, rs2 := r2 }
      | 0xd => .ok { fn := .xor, rd := r1, rs1 := r1, rs2 := r2 }
      | 0xe => .ok { fn := .or, rd := r1, rs1 := r1, rs2 := r2 }
      | 0xf => .ok { fn := .and, rd := r1, rs1 := r1, rs2 := r2 }
      | 0x1c => .ok { fn := .subw, rd := r1, rs1 := r1, rs2 := r2 }
      | 0x1d => .ok { fn := .addw, rd := r1, rs1 := r1, rs2 := r2 }
      | _ => .panic             -- reserved / unreachable
  | 0x15 =>                     -- C.J
    let imm := decodeCJ w
    let imm := signExtend (((imm &&& 0x200) >>> 5) ||| ((imm &&& 0x40) <<< 4) |||
      ((imm &&& 0x5a0) <<< 1) ||| ((imm &&& 0x10) <<< 3) ||| (imm &&& 0xe) |||
      ((imm &&& 0x1) <<< 5)) 11
    .ok { fn := .rvcJAL, rd := Zero, imm := imm }
  | 0x19 =>                     -- C.BEQZ
    let (imm, r) := decodeCB w
    let imm := ((imm &&& 0x80) <<< 1) ||| ((imm &&& 0x60) >>> 2) |||
      ((imm &&& 0x18) <<< 3) ||| (imm &&& 0x6) ||| ((imm &&& 0x1) <<< 5)
    .ok { fn := .beq, rs1 := r, rs2 := Zero, imm := signExtend imm 8 }
  | 0x1D =>                     -- C.BNEZ
    let (imm, r) := decodeCB w
    let imm := ((imm &&& 0x80) <<< 1) ||| ((imm &&& 0x60) >>> 2) |||
      ((imm &&& 0x18) <<< 3) ||| (imm &&& 0x6) ||| ((imm &&& 0x1) <<< 5)
    .ok { fn := .bne, rs1 := r, rs2 := Zero, imm := signExtend imm 8 }
  | 0x02 =>                     -- C.SLLI
    let (imm, r) := decodeCI w
    .ok { fn := .slli, rd := r, rs1 := r, imm := imm }
  | 0x06 => .panic              -- C.FLDSP unsupported
  | 0x0A =>                     -- C.LWSP
    let (imm, r) := decodeCI w
    let imm := ((imm <<< 6) ||| imm) &&& 0xfc
    .ok { fn := .lw, rd := r, rs1 := SP, imm := imm }
  | 0x0E =>                     -- C.LDSP
    let (imm, r) := decodeCI w
    let imm := ((imm <<< 6) ||| imm) &&& 0x1f8
    .ok { fn := .ld, rd := r, rs1 := SP, imm := imm }
  | 0x12 =>                     -- C.JR / C.MV / C.EBREAK / C.JALR / C.ADD
    let (r1, r2) := decodeCR w
    let b := w &&& 0x1000
    if b = 0 ∧ r2 = 0 then .ok { fn := .rvcJALR, rd := Zero, rs1 := r1 }
    else if b = 0 then .ok { fn := .add, rd := r1, rs1 := Zero, rs2 := r2 }
    else if b = 0x1000 ∧ r1 = 0 ∧ r2 = 0 then .ok { fn := .ebreak }
    else if b = 0x1000 ∧ r2 = 0 then .ok { fn := .rvcJALR, rd := RA, rs1 := r1 }
    else .ok { fn := .add, rd := r1, rs1 := r1, rs2 := r2 }
  | 0x16 => .panic              -- C.FSDSP unsupported
  | 0x1A =>                     -- C.SWSP
    let (imm, r) := decodeCSS w
    let imm := ((imm <<< 6) ||| imm) &&& 0xfc
    .ok { fn := .sw, rs1 := SP, rs2 := r, imm := imm }
  | 0x1E =>                     -- C.SDSP
    let (imm, r) := decodeCSS w
    let imm := ((imm <<< 6) ||| imm) &&& 0x1f8
    .ok { fn := .sd, rs1 := SP, rs2 := r, imm := imm }
  | _ => .panic                 -- unrecognized rvc instruction

/-! ## unnamed/part_002: the length decoder, RVI decoder and table -/

/-- The `rvi64Instructions` table: operation key to handler.  `none` is a
nil table entry (a fatal decode error in `Decode`). -/
def rvi64Instructions (key : Nat) : Option Fn :=
  match key with
  | 0x0D => some .lui
  | 0x05 => some .auipc
  | 0x1B => some .jal
  | 0x19 => some .jalr
  | 0x18 => some .beq
  | 0x38 => some .bne
  | 0x98 => some .blt
  | 0xB8 => some .bge
  | 0xD8 => some .bltu
  | 0xF8 => some .bgeu
  | 0x00 => some .lb
  | 0x20 => some .lh
  | 0x40 => some .lw
  | 0x80 => some .lbu
  | 0xA0 => some .lhu
  | 0x08 => some .sb
  | 0x28 => some .sh
  | 0x48 => some .sw
  | 0x04 => some .addi
  | 0x44 => some .slti
  | 0x64 => some .sltiu
  | 0x84 => some .xori
  | 0xC4 => some .ori
  | 0xE4 => some .andi
  | 0x000C => some .add
  | 0x200C => some .sub
  | 0x002C => some .sll
  | 0x004C => some .slt
  | 0x006C => some .sltu
  | 0x008C => some .xor
  | 0x00AC => some .srl
  | 0x20AC => some .sra
  | 0x0CC => some .or
  | 0x0EC => some .and
  | 0x03 => some .fence
  | 0x23 => some .fence_i
  | 0x1C => some .ecallOrBreak
  | 0x3C => some .csrrw
  | 0x5C => some .csrrs
  | 0x7C => some .csrrc
  | 0xBC => some .csrrwi
  | 0xDC => some .csrrsi
  | 0xFC => some .csrrci
  | 0xC0 => some .lwu
  | 0x60 => some .ld
  | 0x68 => some .sd
  | 0x24 => some .slli
  | 0xA4 => some .shiftRight
  | 0x06 => some .addiw
  | 0x0026 => some .slliw
  | 0x00A6 => some .srliw
  | 0x20A6 => some .sraiw
  | 0x000E => some .addw
  | 0x200E => some .subw
  | 0x002E => some .sllw
  | 0x00AE => some .srlw
  | 0x20AE => some .sraw
  | 0x10C => some .mul
  | 0x12C => some .mulh
  | 0x14C => some .mulhsu
  | 0x16C => some .mulhu
  | 0x18C => some .div
  | 0x1AC => some .divu
  | 0x1CC => some .rem
  | 0x1EC => some .remu
  | 0x10E => some .mulw
  | 0x18E => some .divw
  | 0x1AE => some .divuw
  | 0x1CE => some .remw
  | 0x1EE => some .remuw
  | _ => none

/-- `decodeSize`: size of the next instruction from its first byte(s);
`none` is the `ok=false` return for the 192-bit-plus sizes. -/
def decodeSize (b : List Nat) : Option Nat :=
  let b0 := mget b 0
  if b0 % 4 ≠ 3 then some 2
  else if b0 % 32 ≠ 31 then some 4
  else if b0 % 64 = 31 then some 3
  else if b0 % 128 = 63 then some 4
  else                          -- b0 % 128 = 127
    let n := (mget b 1 >>> 4) &&& 0x7
    if n = 7 then none else some (5 + 2 * n)

/-- Result of `Decode`: an instruction and its size, a Go `error`
return, or a panic propagated from `rvcDecode`. -/
inductive DecodeRes where
  | ok (i : Instruction) (size : Nat)
  | err
  | panic

/-- The 32-bit half of `Decode`: extract the fields by format, map the key
through the table. -/
def decode32 (w : Nat) : DecodeRes :=
  let rs1 := (w >>> 15) &&& 0x1f
  let rs2 := (w >>> 20) &&& 0x1f
  let rd := (w >>> 7) &&& 0x1f
  let bop := (w >>> 2) &&& 0x1f
  if bop = 0x0d then            -- u-type: LUI
    .ok { fn := .lui, rs1 := rs1, rs2 := rs2, rd := rd,
          imm := w &&& 0xFFFFF000, inBits := w } 4
  else if bop = 0x05 then       -- u-type: AUIPC
    .ok { fn := .auipc, rs1 := rs1, rs2 := rs2, rd := rd,
          imm := w &&& 0xFFFFF000, inBits := w } 4
  else if bop = 0x1b then       -- j-type: JAL
    .ok { fn := .jal, rs1 := rs1, rs2 := rs2, rd := rd,
          imm := ((w >>> 11) &&& 0x100000) ||| (w &&& 0xff000) |||
                 ((w >>> 9) &&& 0x800) ||| ((w >>> 20) &&& 0x7fe),
          inBits := w } 4
  else
    let f7imm? : Option (Nat × Nat) :=
      if bop = 0x0b ∨ bop = 0x0c ∨ bop = 0x0e ∨ bop = 0x14 then  -- r-type
        some ((w >>> 17) &&& 0x7f00, 0)
      else if bop = 0x00 ∨ bop = 0x01 ∨ bop = 0x03 ∨ bop = 0x04 ∨
              bop = 0x06 ∨ bop = 0x19 ∨ bop = 0x1c then          -- i-type
        some (0, (w >>> 20) &&& 0xfff)
      else if bop = 0x08 ∨ bop = 0x09 then                       -- s-type
        some (0, ((w >>> 20) &&& 0xFE0) ||| ((w >>> 7) &&& 0x1f))
      else if bop = 0x18 then                                    -- b-type
        some (0, ((w >>> 19) &&& 0x1000) ||| ((w <<< 4) &&& 0x800) |||
                 ((w >>> 20) &&& 0x7e0) ||| ((w >>> 7) &&& 0x1e))
      else none
    match f7imm? with
    | none => .err              -- unrecognized format
    | some (f7, imm) =>
      match rvi64Instructions (f7 ||| ((w >>> 7) &&& 0xE0) ||| ((w >>> 2) &&& 0x1f)) with
      | none => .err            -- no entry in the table
      | some f =>
        .ok { fn := f, rs1 := rs1, rs2 := rs2, rd := rd, imm := imm, inBits := w } 4

/-- `Decode`: length-decode and dispatch to the RVC or RVI decoder. -/
def Decode (b : List Nat) : DecodeRes :=
  if b.length = 0 ∨ b.length % 2 ≠ 0 then .err
  else match decodeSize b with
  | none => .err
  | some size =>
    if b.length < size then .err
    else if size = 2 then
      let instr := mget b 1 * 2^8 + mget b 0
      match rvcDecode instr with
      | .ok i => .ok { i with inBits := instr } 2
      | .err => .err
      | .panic => .panic
    else if size ≠ 4 then .err
    else decode32 (mget b 3 * 2^24 + mget b 2 * 2^16 + mget b 1 * 2^8 + mget b 0)

/-! ## pty.go: the fetch/execute loop -/

/-- Result of `Run`: normal completion of the `n` steps, the exit signal,
an error return, or a panic. -/
inductive RunRes where
  | ok (vm : VM)
  | exit (vm : VM)
  | err (vm : VM)
  | panic

/-- The machine state a run leaves behind (`panic` has none). -/
def RunRes.stateOf : RunRes → Option VM
  | .ok vm => some vm
  | .exit vm => some vm
  | .err vm => some vm
  | .panic => none

/-- pty.go `VM.Run`: execute up to `n` instructions. -/
def Run (vm : VM) : Nat → RunRes
  | 0 => .ok vm
  | n + 1 =>
    if vm.PC > vm.Mem.length then .panic    -- the fetch slice would panic
    else
      let endIdx := min (vm.PC + 4) vm.Mem.length
      match Decode ((vm.Mem.drop vm.PC).take (endIdx - vm.PC)) with
      | .err => .err vm
      | .panic => .panic
      | .ok i size =>
        let vm1 : VM := { vm with LastPC := vm.PC }
        match execFn i.fn vm1 i with
        | .err vm2 true => .exit vm2
        | .err vm2 false => .err vm2
        | .panic => .panic
        | .ok vm2 f =>
          let vm3 : VM := { vm2 with Steps := vm2.Steps + 1 }
          let vm4 : VM := if f.updatedRDINSTRET then vm3
            else { vm3 with CSR := fun j => if j = RDINSTRET then vm3.CSR RDINSTRET + 1 else vm3.CSR j }
          let vm5 : VM := if f.updatedPC then vm4
            else { vm4 with PC := (vm4.PC + size) % 2^64 }
          Run vm5 n

/-! ## pty.go: NewVM and the stack initializer -/

/-- pty.go `Prog`.  Go `[]string` fields distinguish nil from empty; the
strings themselves are byte lists. -/
structure Prog where
  Argv? : Option (List (List Nat)) := none
  Env? : Option (List (List Nat)) := none
  Start : Nat := 0
  MemSize : Nat := 0

/-- Total size of a C-string vector: each string plus its NUL. -/
def cstrLen (ss : List (List Nat)) : Nat := (ss.map (fun s => s.length + 1)).sum

/-- The adjusted memory size `memSize` computed by `NewVM` when the stack
is initialized. -/
def memSizeOf (p : Prog) : Nat :=
  p.MemSize + cstrLen (p.Env?.getD []) + cstrLen (p.Argv?.getD [])
    + (1 + (p.Env?.getD []).length + 1 + (p.Argv?.getD []).length + 1) * 8

/-- pty.go `VM.pushUint64`: decrement SP by 8, write the value's 8 bytes
little-endian. -/
def pushUint64 (vm : VM) (v : Nat) : VM :=
  let sp := vm.Reg SP - 8
  { vm with Reg := fun j => if j = SP then sp else vm.Reg j,
            Mem := setLE vm.Mem sp v 8 }

/-- pty.go `VM.pushCString`: decrement SP by the length plus one, copy the
bytes and the trailing NUL. -/
def pushCString (vm : VM) (s : List Nat) : VM :=
  let sp := vm.Reg SP - (s.length + 1)
  { vm with Reg := fun j => if j = SP then sp else vm.Reg j,
            Mem := setBytes vm.Mem sp (s ++ [0]) }

/-- The string-pushing loops of `NewVM`: push each string of `ss` in the
given order, recording the stack pointer (the string's start address)
right after each push.  `NewVM` passes the reversed vector, matching the
Go downward loop. -/
def pushCStrings (vm : VM) : List (List Nat) → VM × List Nat
  | [] => (vm, [])
  | s :: ss =>
    let vm1 := pushCString vm s
    let (vm2, as) := pushCStrings vm1 ss
    (vm2, vm1.Reg SP :: as)

/-- pty.go `NewVM`.  With both vectors nil the stack is left to the
caller; otherwise memory is enlarged by `memSizeOf` and the stack is laid
out: env strings, argv strings, 8-byte alignment of SP, the recorded
address table (leading 0, env addresses, 0, argv addresses) pushed in
order, and finally argc.  (`debugInitialStack` is false; the deferred
restore of SP around the debug dump is the identity.) -/
def NewVM (p : Prog) : VM :=
  let vm0 : VM := { Reg := fun _ => 0, CSR := fun _ => 0, PC := p.Start,
                    Steps := 0, Mem := List.replicate p.MemSize 0, LastPC := 0 }
  if p.Argv?.isNone ∧ p.Env?.isNone then vm0
  else
    let env := p.Env?.getD []
    let argv := p.Argv?.getD []
    let memSize := memSizeOf p
    let vm1 : VM := { vm0 with
      Mem := List.replicate memSize 0,
      Reg := fun j => if j = SP then memSize else 0 }
    let (vm2, envAddrs) := pushCStrings vm1 env.reverse
    let (vm3, argvAddrs) := pushCStrings vm2 argv.reverse
    let addrs := 0 :: (envAddrs ++ 0 :: argvAddrs)
    let vm4 : VM := { vm3 with
      Reg := fun j => if j = SP then vm3.Reg SP - vm3.Reg SP % 8 else vm3.Reg j }
    let vm5 := addrs.foldl pushUint64 vm4
    pushUint64 vm5 argv.length

/-- The bytes `bs` lie in memory `m` starting at address `a`. -/
def bytesAt (m : List Nat) (a : Nat) (bs : List Nat) : Prop :=
  ∀ j, j < bs.length → mget m (a + j) = bs.getD j 0

instance (m : List Nat) (a : Nat) (bs : List Nat) : Decidable (bytesAt m a bs) :=
  Nat.decidableBallLT _ _

/-- Observation helper: the PC of the state a handler result leaves. -/
def HRes.pcOf (r : HRes) : Option Nat := r.stateOf.map (fun vm => vm.PC)

/-- Observation helper: one register of the state a handler result leaves. -/
def HRes.regOf (r : HRes) (n : Nat) : Option Nat := r.stateOf.map (fun vm => vm.Reg n)

/-- Observation helper: one CSR of the state a handler result leaves. -/
def HRes.csrOf (r : HRes) (n : Nat) : Option Nat := r.stateOf.map (fun vm => vm.CSR n)

/-- Observation helper: the flags a handler returned (`none` on error/panic). -/
def HRes.flagsOf : HRes → Option Flags
  | .ok _ f => some f
  | _ => none

/-- Observation helper: one CSR of the state a run leaves. -/
def RunRes.csrOf (r : RunRes) (n : Nat) : Option Nat := r.stateOf.map (fun vm => vm.CSR n)

end RiscvEmu

namespace RiscvEmu

/-! ## Helper lemmas -/

theorem store_Reg_zero (vm : VM) (rd v : Nat) : (vm.store rd v).Reg 0 = vm.Reg 0 := by
  unfold VM.store
  split
  · rfl
  · rename_i h
    show (if (0 : Nat) = rd then v else vm.Reg 0) = vm.Reg 0
    rw [if_neg (fun hn => h hn.symm)]

theorem csrSet_Reg (vm : VM) (idx v r : Nat) : (vm.csrSet idx v).Reg r = vm.Reg r := rfl

/-- C1 helper: every handler leaves register 0 untouched — the only path a
handler has to the register file is `VM.store`, which filters out x0. -/
theorem execFn_Reg_zero (f : Fn) (vm : VM) (i : Instruction) (vm' : VM)
    (h : (execFn f vm i).stateOf = some vm') : vm'.Reg 0 = vm.Reg 0 := by
  cases f <;>
    simp only [execFn, lui, auipc, jal, jalr, beq, bne, blt, bge, bltu, bgeu,
      lb, lh, lw, lbu, lhu, sb, sh, sw, addi, slti, sltiu, xori, ori, andi,
      add, sub, sll, slt, sltu, xor, srl, sra, or, and, fence, fence_i,
      ecallOrBreak, ecall, ebreak, csrrw, csrrs, csrrc, csrrwi, csrrsi, csrrci,
      lwu, ld, sd, slli, shiftRight, srli, srai, addiw, slliw, srliw, sraiw,
      addw, subw, sllw, srlw, sraw, mul, mulh, mulhsu, mulhu, mulw,
      div, divu, divw, divuw, rem, remu, remw, remuw, rvcJAL, rvcJALR] at h <;>
    (repeat' split at h) <;>
    simp only [HRes.stateOf, Option.some.injEq, reduceCtorEq] at h <;>
    (try subst h) <;>
    simp [store_Reg_zero, csrSet_Reg]

/-- C1 helper: the step loop changes register 0 only through handlers. -/
theorem run_Reg_zero : ∀ (n : Nat) (vm vm' : VM),
    (Run vm n).stateOf = some vm' → vm'.Reg 0 = vm.Reg 0 := by
  intro n
  induction n with
  | zero =>
    intro vm vm' h
    simp only [Run, RunRes.stateOf, Option.some.injEq] at h
    subst h; rfl
  | succ n ih =>
    intro vm vm' h
    simp only [Run] at h
    split at h
    · simp [RunRes.stateOf] at h
    · split at h
      · simp only [RunRes.stateOf, Option.some.injEq] at h; subst h; rfl
      · simp [RunRes.stateOf] at h
      · rename_i i size heqD
        split at h
        · rename_i vm2 heqE
          simp only [RunRes.stateOf, Option.some.injEq] at h
          subst h
          exact execFn_Reg_zero i.fn { vm with LastPC := vm.PC } i vm2 (by rw [heqE]; rfl)
        · rename_i vm2 heqE
          simp only [RunRes.stateOf, Option.some.injEq] at h
          subst h
          exact execFn_Reg_zero i.fn { vm with LastPC := vm.PC } i vm2 (by rw [heqE]; rfl)
        · simp [RunRes.stateOf] at h
        · rename_i vm2 f heqE
          have h2 := ih _ _ h
          have h3 : vm2.Reg 0 = vm.Reg 0 :=
            execFn_Reg_zero i.fn { vm with LastPC := vm.PC } i vm2 (by rw [heqE]; rfl)
          rw [h2]
          split <;> split <;> exact h3

/-! ## The claims -/

/-- C1: For every machine state M with M.Reg[0] == 0 and every executable
operation Op (any decoded RVI or RVC handler, executed via the step loop),
Reg[0] == 0 still holds after Op: a write with rd = 0 is silently
discarded and slot 0 always reads as 0.  Stated both per handler (over
every operation discriminator, for any operand fields) and for the step
loop `Run`. -/
theorem C1_reg_zero_invariant :
    (∀ (f : Fn) (vm : VM) (i : Instruction) (vm' : VM), vm.Reg 0 = 0 →
        (execFn f vm i).stateOf = some vm' → vm'.Reg 0 = 0) ∧
    (∀ (n : Nat) (vm vm' : VM), vm.Reg 0 = 0 →
        (Run vm n).stateOf = some vm' → vm'.Reg 0 = 0) := by
  constructor
  · intro f vm i vm' h0 h
    rw [execFn_Reg_zero f vm i vm' h, h0]
  · intro n vm vm' h0 h
    rw [run_Reg_zero n vm vm' h, h0]

/-- C1 witness: an ADDI with rd = 5 on the all-zero machine, and a run of
length 0, both keep register 0 at 0. -/
theorem C1_witness :
    ((execFn Fn.addi ⟨fun _ => 0, fun _ => 0, 0, 0, [], 0⟩
        ⟨Fn.addi, 1, 0, 5, 7, 0⟩).stateOf.map (fun v => v.Reg 0)) = some 0 ∧
    ((Run ⟨fun _ => 0, fun _ => 0, 0, 0, [], 0⟩ 0).stateOf.map
        (fun v => v.Reg 0)) = some 0 := by
  constructor
  · have h : (execFn Fn.addi ⟨fun _ => 0, fun _ => 0, 0, 0, [], 0⟩
        ⟨Fn.addi, 1, 0, 5, 7, 0⟩).stateOf = some _ := rfl
    rw [h]
    exact congrArg some (C1_reg_zero_invariant.1 Fn.addi _ _ _ rfl h)
  · have h : (Run ⟨fun _ => 0, fun _ => 0, 0, 0, [], 0⟩ 0).stateOf = some _ := rfl
    rw [h]
    exact congrArg some (C1_reg_zero_invariant.2 0 _ _ rfl h)

/-- C2: the claim says the JAL handler sets `PC ← PC + sx(imm, 20)`,
replicating bit 20 of the 21-bit decoded immediate.  The code calls
`signExtend(in.imm, 19)`, replicating bit 19.  Failing input: the valid
encoding `0x8000006F` (JAL x0 with offset −2^20) decodes to `imm =
0x100000` (bit 20 set, bit 19 clear); from `PC = 0x200000` the handler
jumps forward to `0x300000` while the claimed semantics give
`PC − 2^20 = 0x100000`. -/
theorem C2_jal_extends_bit19_not_bit20 :
    decode32 0x8000006F =
      DecodeRes.ok ⟨Fn.jal, 0, 0, 0, 0x100000, 0x8000006F⟩ 4 ∧
    (jal ⟨fun _ => 0, fun _ => 0, 0x200000, 0, [], 0⟩
        ⟨Fn.jal, 0, 0, 0, 0x100000, 0x8000006F⟩).pcOf = some 0x300000 ∧
    (0x200000 + signExtend 0x100000 20) % 2^64 = 0x100000 ∧
    (0x300000 : Nat) ≠ 0x100000 := by
  refine ⟨rfl, rfl, by decide, by decide⟩

/-- C3: the claim says the JALR handler sets
`PC ← (Reg[rs1] + sx(imm, 11)) & ~1`, replicating bit 11 of the 12-bit
decoded immediate.  The code calls `signExtend(in.imm, 12)`; since the
decoder's I-type immediate is below `2^12`, bit 12 is never set and no
extension ever happens.  Failing input: `0xFFF300E7` (JALR x1, −1(x6))
with `Reg[6] = 0x1000` gives `PC = 0x1FFE` instead of the claimed
`(0x1000 − 1) & ~1 = 0xFFE`. -/
theorem C3_jalr_does_not_sign_extend :
    decode32 0xFFF300E7 =
      DecodeRes.ok ⟨Fn.jalr, 6, 31, 1, 0xFFF, 0xFFF300E7⟩ 4 ∧
    (jalr ⟨fun r => if r = 6 then 0x1000 else 0, fun _ => 0, 0, 0, [], 0⟩
        ⟨Fn.jalr, 6, 31, 1, 0xFFF, 0xFFF300E7⟩).pcOf = some 0x1FFE ∧
    (let t := (0x1000 + signExtend 0xFFF 11) % 2^64
     t - t % 2 = 0xFFE) ∧
    (0x1FFE : Nat) ≠ 0xFFE := by
  refine ⟨rfl, rfl, by decide, by decide⟩

/-- C4: the claim says the combined right-shift handler executes SRAI when
the high 6 bits of the immediate are 0x10.  The code switches on
`in.imm & 0xFC00`, which is a multiple of 0x400 and never equals 0x10, so
every architecturally valid SRAI (imm = 0x400 | shamt, i.e. high six bits
0x10) falls into the fatal default and panics.  Failing input: the valid
encoding `0x4015D513` (SRAI x10, x11, 1); with `Reg[11] = −3` the handler
panics where the claim requires the arithmetic shift result −2. -/
theorem C4_srai_always_fatal :
    decode32 0x4015D513 =
      DecodeRes.ok ⟨Fn.shiftRight, 11, 1, 10, 0x401, 0x4015D513⟩ 4 ∧
    (0x401 : Nat) >>> 6 = 0x10 ∧
    shiftRight ⟨fun r => if r = 11 then 0xFFFFFFFFFFFFFFFD else 0, fun _ => 0, 0, 0, [], 0⟩
        ⟨Fn.shiftRight, 11, 1, 10, 0x401, 0x4015D513⟩ = HRes.panic ∧
    (srai ⟨fun r => if r = 11 then 0xFFFFFFFFFFFFFFFD else 0, fun _ => 0, 0, 0, [], 0⟩
        ⟨Fn.shiftRight, 11, 1, 10, 0x401, 0x4015D513⟩).regOf 10 =
      some 0xFFFFFFFFFFFFFFFE := by
  refine ⟨rfl, by decide, rfl, rfl⟩

/-- C5: the claim says a CSRRW that writes RDINSTRET returns the
`updatedRDINSTRET` flag for any rd, so that after the step RDINSTRET holds
exactly the written value.  The code sets the flag only in the `rd == 0`
branch.  Failing input: one `Run` step over CSRRW x1, instret, x5 (bytes
`F3 90 32 00`) with `Reg[5] = 5`: the handler writes 5 and returns the
flag clear, the loop increments again, and RDINSTRET ends at 6, not 5. -/
theorem C5_csrrw_rdinstret_flag_lost :
    (csrrw ⟨fun r => if r = 5 then 5 else 0, fun _ => 0, 0, 0, [0xF3, 0x90, 0x32, 0x00], 0⟩
        ⟨Fn.csrrw, 5, 3, 1, 3, 0x003290F3⟩).flagsOf =
      some { updatedPC := false, updatedRDINSTRET := false } ∧
    (csrrw ⟨fun r => if r = 5 then 5 else 0, fun _ => 0, 0, 0, [0xF3, 0x90, 0x32, 0x00], 0⟩
        ⟨Fn.csrrw, 5, 3, 1, 3, 0x003290F3⟩).csrOf RDINSTRET = some 5 ∧
    (Run ⟨fun r => if r = 5 then 5 else 0, fun _ => 0, 0, 0, [0xF3, 0x90, 0x32, 0x00], 0⟩
        1).csrOf RDINSTRET = some 6 ∧
    (6 : Nat) ≠ 5 := by
  refine ⟨rfl, rfl, rfl, by decide⟩

/-- C6: the claim says that for the W variants "divisor 0" means the low
32 bits of the divisor register are 0, and that on that path the value
written is the 32-bit dividend sign-extended.  The code tests the full
64-bit register and writes the raw 64-bit dividend.  Failing inputs: REMW
with `Reg[rs1] = 0x100000005`, `Reg[rs2] = 0` writes the raw
`0x100000005` where the claim requires `sx(5, 31) = 5`; REMW with
`Reg[rs2] = 0x100000000` (low 32 bits zero, register non-zero) panics
with a division by zero instead of taking the divisor-0 path.  REMUW
behaves the same way. -/
theorem C6_remw_divisor_zero_path :
    (remw ⟨fun r => if r = 11 then 0x100000005 else 0, fun _ => 0, 0, 0, [], 0⟩
        ⟨Fn.remw, 11, 12, 10, 0, 0⟩).regOf 10 = some 0x100000005 ∧
    signExtend (0x100000005 % 2^32) 31 = 5 ∧
    (0x100000005 : Nat) ≠ 5 ∧
    remw ⟨fun r => if r = 11 then 7 else if r = 12 then 0x100000000 else 0,
        fun _ => 0, 0, 0, [], 0⟩ ⟨Fn.remw, 11, 12, 10, 0, 0⟩ = HRes.panic ∧
    (remuw ⟨fun r => if r = 11 then 0x100000005 else 0, fun _ => 0, 0, 0, [], 0⟩
        ⟨Fn.remuw, 11, 12, 10, 0, 0⟩).regOf 10 = some 0x100000005 := by
  refine ⟨rfl, by decide, by decide, rfl, rfl⟩

/-- C8: the claim says SLTIU compares against the immediate sign-extended
from bit 11 and then treated as unsigned.  The code compares against the
raw 12-bit immediate with no extension.  Failing input: `Reg[rs1] =
0x1000`, `imm = 0xFFF`: the sign-extended immediate is `2^64 − 1`, so the
claim requires rd = 1, but the code compares `0x1000 < 0xFFF` and writes
0. -/
theorem C8_sltiu_immediate_not_extended :
    (sltiu ⟨fun r => if r = 11 then 0x1000 else 0, fun _ => 0, 0, 0, [], 0⟩
        ⟨Fn.sltiu, 11, 0, 10, 0xFFF, 0⟩).regOf 10 = some 0 ∧
    signExtend 0xFFF 11 = 2^64 - 1 ∧
    (0x1000 : Nat) < 2^64 - 1 ∧
    (0 : Nat) ≠ 1 := by
  refine ⟨rfl, by decide, by decide, by decide⟩

/-- C7 counterexample: MULH does not always write the high 64 bits of the
signed 128-bit product.  At `a = −3`, `b = 0x7fffffffffffffff` (the
claim's own example) the true high word is −2 but the handler, which
negates only the high word of the magnitude product and drops the borrow
from the low word, writes −1. -/
theorem C7_mulh_counterexample :
    (mulh ⟨fun r => if r = 11 then 0xFFFFFFFFFFFFFFFD else
          if r = 12 then 0x7FFFFFFFFFFFFFFF else 0, fun _ => 0, 0, 0, [], 0⟩
        ⟨Fn.mulh, 11, 12, 10, 0, 0⟩).regOf 10 = some 0xFFFFFFFFFFFFFFFF ∧
    ofInt64 ((toInt64 0xFFFFFFFFFFFFFFFD * toInt64 0x7FFFFFFFFFFFFFFF).fdiv (2^64)) =
      0xFFFFFFFFFFFFFFFE ∧
    (0xFFFFFFFFFFFFFFFF : Nat) ≠ 0xFFFFFFFFFFFFFFFE := by
  refine ⟨rfl, by decide, by decide⟩

/-- The 32x32 partial-product combination used by the mulh family computes
exactly the high 64-bit word of the product. -/
theorem natHigh_partials (m1 m2 : Nat) :
    m1 / 2^32 * (m2 / 2^32) + m1 / 2^32 * (m2 % 2^32) / 2^32 +
      m1 % 2^32 * (m2 / 2^32) / 2^32 +
      (m1 % 2^32 * (m2 % 2^32) / 2^32 + m1 / 2^32 * (m2 % 2^32) % 2^32 +
        m1 % 2^32 * (m2 / 2^32) % 2^32) / 2^32
      = m1 * m2 / 2^64 := by
  have hprod : m1 * m2 = 2^64 * (m1 / 2^32 * (m2 / 2^32)) +
      2^32 * (m1 / 2^32 * (m2 % 2^32)) + 2^32 * (m1 % 2^32 * (m2 / 2^32)) +
      m1 % 2^32 * (m2 % 2^32) := by
    conv_lhs => rw [← Nat.div_add_mod m1 (2^32), ← Nat.div_add_mod m2 (2^32)]
    ring
  rw [hprod]
  generalize m1 / 2^32 * (m2 / 2^32) = a
  generalize m1 / 2^32 * (m2 % 2^32) = b
  generalize m1 % 2^32 * (m2 / 2^32) = c
  generalize m1 % 2^32 * (m2 % 2^32) = d
  omega

/-- The magnitude of the `int64` view of a 64-bit word is at most `2^63`. -/
theorem toInt64_natAbs_le (a : Nat) : (toInt64 a).natAbs ≤ 2^63 := by
  unfold toInt64
  split <;> omega

/-- The value the mulh handler stores, compared against the true high word
of the signed product: exact when the product is non-negative or divisible
by `2^64`, one too high otherwise. -/
theorem mulh_value_eq (n1 n2 : Int) (hm1 : n1.natAbs ≤ 2^63) (hm2 : n2.natAbs ≤ 2^63) :
    (if (decide (n1 < 0)) ≠ (decide (n2 < 0))
     then (2^64 - (n1.natAbs * n2.natAbs / 2^64) % 2^64) % 2^64
     else n1.natAbs * n2.natAbs / 2^64) =
    (if 0 ≤ n1 * n2 ∨ n1 * n2 % 2^64 = 0 then ofInt64 (n1 * n2 / 2^64)
     else ofInt64 (n1 * n2 / 2^64 + 1)) := by
  have hPabs : (n1 * n2).natAbs = n1.natAbs * n2.natAbs := Int.natAbs_mul n1 n2
  have hMlt : n1.natAbs * n2.natAbs < 2^128 :=
    lt_of_le_of_lt (Nat.mul_le_mul hm1 hm2) (by norm_num)
  unfold ofInt64
  by_cases h1 : n1 < 0 <;> by_cases h2 : n2 < 0
  · have hP : 0 ≤ n1 * n2 := by
      have := mul_nonneg (by omega : (0:Int) ≤ -n1) (by omega : (0:Int) ≤ -n2)
      rw [neg_mul_neg] at this; exact this
    rw [decide_eq_true h1, decide_eq_true h2, if_neg (by simp), if_pos (Or.inl hP)]
    generalize hp : n1 * n2 = p at hP hPabs ⊢
    generalize hM : n1.natAbs * n2.natAbs = M at hPabs hMlt ⊢
    omega
  · have hP : n1 * n2 ≤ 0 := by
      have := mul_nonneg (by omega : (0:Int) ≤ -n1) (by omega : (0:Int) ≤ n2)
      rw [neg_mul] at this; omega
    rw [decide_eq_true h1, decide_eq_false h2, if_pos (by simp)]
    generalize hp : n1 * n2 = p at hP hPabs ⊢
    generalize hM : n1.natAbs * n2.natAbs = M at hPabs hMlt ⊢
    split
    · rename_i hcond
      rcases hcond with hc | hc <;> omega
    · rename_i hcond
      rw [not_or] at hcond
      omega
  · have hP : n1 * n2 ≤ 0 := by
      have := mul_nonneg (by omega : (0:Int) ≤ n1) (by omega : (0:Int) ≤ -n2)
      rw [mul_neg] at this; omega
    rw [decide_eq_false h1, decide_eq_true h2, if_pos (by simp)]
    generalize hp : n1 * n2 = p at hP hPabs ⊢
    generalize hM : n1.natAbs * n2.natAbs = M at hPabs hMlt ⊢
    split
    · rename_i hcond
      rcases hcond with hc | hc <;> omega
    · rename_i hcond
      rw [not_or] at hcond
      omega
  · have hP : 0 ≤ n1 * n2 := mul_nonneg (by omega) (by omega)
    rw [decide_eq_false h1, decide_eq_false h2, if_neg (by simp), if_pos (Or.inl hP)]
    generalize hp : n1 * n2 = p at hP hPabs ⊢
    generalize hM : n1.natAbs * n2.natAbs = M at hPabs hMlt ⊢
    omega

/-- C7 amended: the MULH handler writes the high 64 bits of the 128-bit
signed product `int64(a) × int64(b)` whenever the product is non-negative
or divisible by `2^64`; when the product is negative with a non-zero low
64-bit word, the handler (which negates only the high word of the
magnitude product, dropping the borrow) writes one more than the true
high word. -/
theorem C7_mulh_amended (vm : VM) (i : Instruction)
    (_ha : vm.Reg i.rs1 < 2^64) (_hb : vm.Reg i.rs2 < 2^64) :
    mulh vm i = HRes.ok (vm.store i.rd
      (if 0 ≤ toInt64 (vm.Reg i.rs1) * toInt64 (vm.Reg i.rs2) ∨
          toInt64 (vm.Reg i.rs1) * toInt64 (vm.Reg i.rs2) % 2^64 = 0
       then ofInt64 (toInt64 (vm.Reg i.rs1) * toInt64 (vm.Reg i.rs2) / 2^64)
       else ofInt64 (toInt64 (vm.Reg i.rs1) * toInt64 (vm.Reg i.rs2) / 2^64 + 1))) {} := by
  have hv := natHigh_partials (toInt64 (vm.Reg i.rs1)).natAbs (toInt64 (vm.Reg i.rs2)).natAbs
  have heq := mulh_value_eq (toInt64 (vm.Reg i.rs1)) (toInt64 (vm.Reg i.rs2))
    (toInt64_natAbs_le _) (toInt64_natAbs_le _)
  simp only [mulh]
  rw [hv, heq]

/-! ## Memory write/read lemmas for the stack initializer -/

theorem mget_set_self (m : List Nat) (i v : Nat) (h : i < m.length) :
    mget (m.set i v) i = v := by
  simp [mget, List.getD_eq_getElem?_getD, List.getElem?_set_self',
    List.getElem?_eq_getElem h]

theorem mget_set_ne (m : List Nat) (i j v : Nat) (h : i ≠ j) :
    mget (m.set i v) j = mget m j := by
  simp [mget, List.getD_eq_getElem?_getD, List.getElem?_set_ne h]

theorem length_setBytes (bs : List Nat) : ∀ (m : List Nat) (a : Nat),
    (setBytes m a bs).length = m.length := by
  induction bs with
  | nil => intro m a; rfl
  | cons b bs ih => intro m a; rw [setBytes, ih, List.length_set]

theorem mget_setBytes_out (bs : List Nat) : ∀ (m : List Nat) (a j : Nat),
    (j < a ∨ a + bs.length ≤ j) → mget (setBytes m a bs) j = mget m j := by
  induction bs with
  | nil => intro m a j _; rfl
  | cons b bs ih =>
    intro m a j hj
    simp only [List.length_cons] at hj
    rw [setBytes, ih _ _ _ (by omega)]
    exact mget_set_ne _ _ _ _ (by omega)

theorem mget_setBytes (bs : List Nat) : ∀ (m : List Nat) (a j : Nat),
    a + bs.length ≤ m.length → j < bs.length →
    mget (setBytes m a bs) (a + j) = bs.getD j 0 := by
  induction bs with
  | nil => intro m a j _ hj; simp at hj
  | cons b bs ih =>
    intro m a j hlen hj
    simp only [List.length_cons] at hlen
    match j with
    | 0 =>
      rw [setBytes, mget_setBytes_out bs _ _ _ (Or.inl (by omega))]
      exact mget_set_self m a b (by omega)
    | j + 1 =>
      have hih := ih (m.set a b) (a + 1) j
        (by rw [List.length_set]; omega) (by simp only [List.length_cons] at hj; omega)
      rw [setBytes, show a + (j + 1) = a + 1 + j by omega, hih]
      rfl

theorem length_setLE (k : Nat) : ∀ (m : List Nat) (a v : Nat),
    (setLE m a v k).length = m.length := by
  induction k with
  | zero => intro m a v; rfl
  | succ k ih => intro m a v; rw [setLE, ih, List.length_set]

theorem mget_setLE_out (k : Nat) : ∀ (m : List Nat) (a v j : Nat),
    (j < a ∨ a + k ≤ j) → mget (setLE m a v k) j = mget m j := by
  induction k with
  | zero => intro m a v j _; rfl
  | succ k ih =>
    intro m a v j hj
    rw [setLE, ih _ _ _ _ (by omega)]
    exact mget_set_ne _ _ _ _ (by omega)

theorem mget_setLE (k : Nat) : ∀ (m : List Nat) (a v j : Nat),
    a + k ≤ m.length → j < k →
    mget (setLE m a v k) (a + j) = v / 256^j % 256 := by
  induction k with
  | zero => intro m a v j _ hj; omega
  | succ k ih =>
    intro m a v j hlen hj
    match j with
    | 0 =>
      rw [setLE, mget_setLE_out k _ _ _ _ (Or.inl (by omega))]
      simpa using mget_set_self m a (v % 256) (by omega)
    | j + 1 =>
      have hih := ih (m.set a (v % 256)) (a + 1) (v / 256) j
        (by rw [List.length_set]; omega) (by omega)
      rw [setLE, show a + (j + 1) = a + 1 + j by omega, hih,
        Nat.pow_succ' (m := 256), Nat.div_div_eq_div_mul]

theorem readW_setLE (m : List Nat) (a v : Nat) (h : a + 8 ≤ m.length) :
    readW (setLE m a v 8) a = v % 2^64 := by
  have g : ∀ j, j < 8 → mget (setLE m a v 8) (a + j) = v / 256^j % 256 :=
    fun j hj => mget_setLE 8 m a v j h hj
  have g0 := g 0 (by omega)
  rw [Nat.add_zero] at g0
  unfold readW
  rw [g0, g 1 (by omega), g 2 (by omega), g 3 (by omega), g 4 (by omega),
    g 5 (by omega), g 6 (by omega), g 7 (by omega)]
  norm_num
  omega

theorem readW_congr (m m' : List Nat) (a : Nat)
    (h : ∀ j, j < 8 → mget m' (a + j) = mget m (a + j)) : readW m' a = readW m a := by
  have h0 := h 0 (by omega)
  rw [Nat.add_zero] at h0
  unfold readW
  rw [h0, h 1 (by omega), h 2 (by omega), h 3 (by omega), h 4 (by omega),
    h 5 (by omega), h 6 (by omega), h 7 (by omega)]

/-- Everything the pointer-table pushing phase does: SP drops by 8 per
word, memory outside the written window is untouched, and the `k`-th
pushed word can be read back at `SP − 8(k+1)`. -/
theorem foldl_pushUint64_spec (ws : List Nat) : ∀ (vm : VM),
    8 * ws.length ≤ vm.Reg SP → vm.Reg SP ≤ vm.Mem.length →
    (ws.foldl pushUint64 vm).Reg SP = vm.Reg SP - 8 * ws.length ∧
    (ws.foldl pushUint64 vm).Mem.length = vm.Mem.length ∧
    (∀ q, q ≠ SP → (ws.foldl pushUint64 vm).Reg q = vm.Reg q) ∧
    (∀ j, j < vm.Reg SP - 8 * ws.length ∨ vm.Reg SP ≤ j →
        mget (ws.foldl pushUint64 vm).Mem j = mget vm.Mem j) ∧
    (∀ k, k < ws.length →
        readW (ws.foldl pushUint64 vm).Mem (vm.Reg SP - 8 * (k + 1)) =
          ws.getD k 0 % 2^64) := by
  induction ws with
  | nil =>
    intro vm _ _
    refine ⟨by simp, rfl, fun q _ => rfl, fun j _ => rfl, fun k hk => by simp at hk⟩
  | cons w ws ih =>
    intro vm hsp hlen
    simp only [List.length_cons] at hsp ⊢
    have hsp1 : (pushUint64 vm w).Reg SP = vm.Reg SP - 8 := by
      simp [pushUint64]
    have hlen1 : (pushUint64 vm w).Mem.length = vm.Mem.length := by
      simp [pushUint64, length_setLE]
    have hreg1 : ∀ q, q ≠ SP → (pushUint64 vm w).Reg q = vm.Reg q := by
      intro q hq
      simp [pushUint64, hq]
    have hmem1 : ∀ j, j < vm.Reg SP - 8 ∨ vm.Reg SP ≤ j →
        mget (pushUint64 vm w).Mem j = mget vm.Mem j := by
      intro j hj
      show mget (setLE vm.Mem (vm.Reg SP - 8) w 8) j = mget vm.Mem j
      exact mget_setLE_out 8 _ _ _ _ (by omega)
    have hfold : (w :: ws).foldl pushUint64 vm = ws.foldl pushUint64 (pushUint64 vm w) := rfl
    obtain ⟨ihsp, ihlen, ihreg, ihmem, ihread⟩ :=
      ih (pushUint64 vm w) (by omega) (by omega)
    rw [hfold]
    refine ⟨by omega, by omega, ?_, ?_, ?_⟩
    · intro q hq
      rw [ihreg q hq, hreg1 q hq]
    · intro j hj
      rw [ihmem j (by omega), hmem1 j (by omega)]
    · intro k hk
      match k with
      | 0 =>
        have hr : readW (ws.foldl pushUint64 (pushUint64 vm w)).Mem (vm.Reg SP - 8) =
            readW (pushUint64 vm w).Mem (vm.Reg SP - 8) := by
          apply readW_congr
          intro j hj
          exact ihmem _ (by omega)
        rw [show vm.Reg SP - 8 * (0 + 1) = vm.Reg SP - 8 by omega, hr]
        have hrw : readW (setLE vm.Mem (vm.Reg SP - 8) w 8) (vm.Reg SP - 8) = w % 2^64 :=
          readW_setLE vm.Mem (vm.Reg SP - 8) w (by omega)
        exact hrw
      | k + 1 =>
        have := ihread k (by omega)
        rw [show vm.Reg SP - 8 * (k + 1 + 1) = (pushUint64 vm w).Reg SP - 8 * (k + 1) by omega,
          this]
        rfl

theorem cstrLen_cons (s : List Nat) (ss : List (List Nat)) :
    cstrLen (s :: ss) = s.length + 1 + cstrLen ss := by
  simp [cstrLen]

theorem cstrLen_take_le (ss : List (List Nat)) : ∀ (n : Nat),
    cstrLen (ss.take n) ≤ cstrLen ss := by
  induction ss with
  | nil => intro n; simp
  | cons s ss ih =>
    intro n
    match n with
    | 0 => simp [cstrLen]
    | n + 1 =>
      rw [List.take_succ_cons, cstrLen_cons, cstrLen_cons]
      have := ih n
      omega

/-- Everything the string-pushing phase does: SP drops by the total string
length, memory at or above the starting SP is untouched, and the `k`-th
recorded address points at the NUL-terminated copy of the `k`-th string. -/
theorem pushCStrings_spec (ss : List (List Nat)) : ∀ (vm : VM),
    cstrLen ss ≤ vm.Reg SP → vm.Reg SP ≤ vm.Mem.length →
    (pushCStrings vm ss).1.Reg SP = vm.Reg SP - cstrLen ss ∧
    (pushCStrings vm ss).1.Mem.length = vm.Mem.length ∧
    (∀ j, vm.Reg SP ≤ j → mget (pushCStrings vm ss).1.Mem j = mget vm.Mem j) ∧
    (pushCStrings vm ss).2.length = ss.length ∧
    (∀ k, k < ss.length →
        (pushCStrings vm ss).2.getD k 0 = vm.Reg SP - cstrLen (ss.take (k + 1)) ∧
        bytesAt (pushCStrings vm ss).1.Mem ((pushCStrings vm ss).2.getD k 0)
          (ss.getD k [] ++ [0])) := by
  induction ss with
  | nil =>
    intro vm _ _
    refine ⟨by simp [pushCStrings, cstrLen], rfl, fun j _ => rfl, rfl, fun k hk => by simp at hk⟩
  | cons s ss ih =>
    intro vm hsp hlen
    rw [cstrLen_cons] at hsp
    have h1sp : (pushCString vm s).Reg SP = vm.Reg SP - (s.length + 1) := by
      simp [pushCString]
    have h1len : (pushCString vm s).Mem.length = vm.Mem.length := by
      simp [pushCString, length_setBytes]
    have h1out : ∀ j, (j < vm.Reg SP - (s.length + 1) ∨ vm.Reg SP ≤ j) →
        mget (pushCString vm s).Mem j = mget vm.Mem j := by
      intro j hj
      show mget (setBytes vm.Mem (vm.Reg SP - (s.length + 1)) (s ++ [0])) j = mget vm.Mem j
      apply mget_setBytes_out
      simp only [List.length_append, List.length_cons, List.length_nil]
      omega
    have h1in : bytesAt (pushCString vm s).Mem (vm.Reg SP - (s.length + 1)) (s ++ [0]) := by
      intro j hj
      show mget (setBytes vm.Mem (vm.Reg SP - (s.length + 1)) (s ++ [0])) _ = _
      apply mget_setBytes
      · simp only [List.length_append, List.length_cons, List.length_nil]
        omega
      · exact hj
    obtain ⟨ihsp, ihlen, ihmem, ihlen2, ihk⟩ :=
      ih (pushCString vm s) (by omega) (by omega)
    refine ⟨?_, ?_, ?_, ?_, ?_⟩
    · show (pushCStrings (pushCString vm s) ss).1.Reg SP = _
      rw [ihsp, h1sp, cstrLen_cons]
      omega
    · show (pushCStrings (pushCString vm s) ss).1.Mem.length = _
      omega
    · intro j hj
      show mget (pushCStrings (pushCString vm s) ss).1.Mem j = mget vm.Mem j
      rw [ihmem j (by omega), h1out j (Or.inr hj)]
    · show ((pushCString vm s).Reg SP :: (pushCStrings (pushCString vm s) ss).2).length = _
      simp [ihlen2]
    · intro k hk
      match k with
      | 0 =>
        constructor
        · show (pushCString vm s).Reg SP = _
          rw [h1sp, List.take_succ_cons, List.take_zero, cstrLen_cons]
          simp [cstrLen]
        · intro j hj
          have hunfold : pushCStrings vm (s :: ss) =
              ((pushCStrings (pushCString vm s) ss).1,
               (pushCString vm s).Reg SP :: (pushCStrings (pushCString vm s) ss).2) := rfl
          rw [hunfold]
          dsimp only
          simp only [List.getD_cons_zero]
          rw [ihmem _ (Nat.le_add_right _ _), h1sp]
          exact h1in j hj
      | k + 1 =>
        simp only [List.length_cons] at hk
        obtain ⟨iha, ihb⟩ := ihk k (by omega)
        constructor
        · show (pushCStrings (pushCString vm s) ss).2.getD k 0 = _
          rw [iha, h1sp, List.take_succ_cons, cstrLen_cons]
          have := cstrLen_take_le ss (k + 1)
          omega
        · exact ihb

theorem cstrLen_reverse (ss : List (List Nat)) : cstrLen ss.reverse = cstrLen ss := by
  simp [cstrLen, List.sum_reverse]

theorem getD_reverse (l : List (List Nat)) (i : Nat) (h : i < l.length) :
    l.reverse.getD (l.length - 1 - i) [] = l.getD i [] := by
  rw [List.getD_eq_getElem _ _ (by simp; omega), List.getD_eq_getElem _ _ h]
  rw [List.getElem_reverse]
  congr 1
  omega

/-- The complete layout `NewVM` produces when it initializes the stack:
the enlarged memory size, the final (8-byte aligned) stack pointer, argc
at SP, the argv pointer table, its null terminator, the env pointer
table, and its null terminator, each table word holding the address of
the NUL-terminated in-memory copy of its string. -/
theorem NewVM_layout (p : Prog)
    (hne : ¬(p.Argv?.isNone ∧ p.Env?.isNone))
    (hNlt : memSizeOf p < 2^64) :
    (NewVM p).Mem.length = memSizeOf p ∧
    (NewVM p).Reg SP = p.MemSize - p.MemSize % 8 ∧
    readW (NewVM p).Mem ((NewVM p).Reg SP) = (p.Argv?.getD []).length ∧
    (∀ i, i < (p.Argv?.getD []).length →
        bytesAt (NewVM p).Mem
          (readW (NewVM p).Mem ((NewVM p).Reg SP + 8 * (1 + i)))
          ((p.Argv?.getD []).getD i [] ++ [0])) ∧
    readW (NewVM p).Mem ((NewVM p).Reg SP + 8 * (1 + (p.Argv?.getD []).length)) = 0 ∧
    (∀ j, j < (p.Env?.getD []).length →
        bytesAt (NewVM p).Mem
          (readW (NewVM p).Mem
            ((NewVM p).Reg SP + 8 * ((p.Argv?.getD []).length + 2 + j)))
          ((p.Env?.getD []).getD j [] ++ [0])) ∧
    readW (NewVM p).Mem
      ((NewVM p).Reg SP +
        8 * ((p.Argv?.getD []).length + (p.Env?.getD []).length + 2)) = 0 := by
  set env := p.Env?.getD [] with henvdef
  set argv := p.Argv?.getD [] with hargvdef
  set N := memSizeOf p with hNdef
  set m := env.length with hmdef
  set n := argv.length with hndef
  have hNval : N = p.MemSize + cstrLen env + cstrLen argv + (1 + m + 1 + n + 1) * 8 := rfl
  set vm1 : VM := ⟨fun j => if j = SP then N else 0, fun _ => 0, p.Start, 0,
    List.replicate N 0, 0⟩ with hvm1def
  have hvm1sp : vm1.Reg SP = N := by
    rw [hvm1def]; show (if SP = SP then N else 0) = N; rw [if_pos rfl]
  have hvm1len : vm1.Mem.length = N := by rw [hvm1def]; exact List.length_replicate N 0
  have hTe : cstrLen env.reverse = cstrLen env := cstrLen_reverse env
  have hTa : cstrLen argv.reverse = cstrLen argv := cstrLen_reverse argv
  obtain ⟨Asp, Alen, Amem, Alen2, Ak⟩ := pushCStrings_spec env.reverse vm1
      (by rw [hTe, hvm1sp]; omega) (by rw [hvm1sp, hvm1len])
  set vmA := (pushCStrings vm1 env.reverse).1 with hvmAdef
  set envAddrs := (pushCStrings vm1 env.reverse).2 with hEAdef
  have hAsp : vmA.Reg SP = N - cstrLen env := by rw [Asp, hTe, hvm1sp]
  have hAlen : vmA.Mem.length = N := by rw [Alen, hvm1len]
  have hEAlen : envAddrs.length = m := by rw [Alen2, List.length_reverse]
  obtain ⟨Bsp, Blen, Bmem, Blen2, Bk⟩ := pushCStrings_spec argv.reverse vmA
      (by rw [hTa, hAsp]; omega) (by rw [hAsp, hAlen]; omega)
  set vmB := (pushCStrings vmA argv.reverse).1 with hvmBdef
  set argvAddrs := (pushCStrings vmA argv.reverse).2 with hAAdef
  have hBsp : vmB.Reg SP = N - cstrLen env - cstrLen argv := by
    rw [Bsp, hTa, hAsp]
  have hBlen : vmB.Mem.length = N := by rw [Blen, hAlen]
  have hAAlen : argvAddrs.length = n := by rw [Blen2, List.length_reverse]
  have hS1 : vmB.Reg SP = p.MemSize + 8 * (n + m + 3) := by rw [hBsp]; omega
  set vmC : VM := { vmB with
    Reg := fun j => if j = SP then vmB.Reg SP - vmB.Reg SP % 8 else vmB.Reg j } with hvmCdef
  have hCsp : vmC.Reg SP = vmB.Reg SP - vmB.Reg SP % 8 := by
    rw [hvmCdef]
    show (if SP = SP then vmB.Reg SP - vmB.Reg SP % 8 else vmB.Reg SP) = _
    rw [if_pos rfl]
  have hCmem : vmC.Mem = vmB.Mem := rfl
  have hClen : vmC.Mem.length = N := by rw [hCmem, hBlen]
  have hS2 : vmC.Reg SP = p.MemSize - p.MemSize % 8 + 8 * (n + m + 3) := by
    rw [hCsp, hS1]; omega
  set ws : List Nat := (0 :: (envAddrs ++ 0 :: argvAddrs)) ++ [n] with hwsdef
  have hwslen : ws.length = n + m + 3 := by
    rw [hwsdef]; simp [hEAlen, hAAlen]; omega
  obtain ⟨Esp, Elen, _, Emem, Eread⟩ := foldl_pushUint64_spec ws vmC
      (by rw [hwslen, hS2]; omega) (by rw [hClen, hS2]; omega)
  have hfin : NewVM p = ws.foldl pushUint64 vmC := by
    rw [hwsdef, List.foldl_append]
    show NewVM p = pushUint64 ((0 :: (envAddrs ++ 0 :: argvAddrs)).foldl pushUint64 vmC) n
    rw [NewVM]
    rw [if_neg hne]
  have hfsp : (ws.foldl pushUint64 vmC).Reg SP = p.MemSize - p.MemSize % 8 := by
    rw [Esp, hwslen, hS2]; omega
  rw [hfin, hfsp]
  have hflen : (ws.foldl pushUint64 vmC).Mem.length = N := by rw [Elen, hClen]
  refine ⟨by rw [hflen, hNdef], rfl, ?_, ?_, ?_, ?_, ?_⟩
  · -- argc at SP
    have h3 := Eread (n + m + 2) (by rw [hwslen]; omega)
    rw [show vmC.Reg SP - 8 * (n + m + 2 + 1) = p.MemSize - p.MemSize % 8 by
      rw [hS2]; omega] at h3
    have hws3 : ws.getD (n + m + 2) 0 = n := by
      have hlen : (0 :: (envAddrs ++ 0 :: argvAddrs)).length = n + m + 2 := by
        simp only [List.length_cons, List.length_append, hEAlen, hAAlen]
        omega
      rw [hwsdef, List.getD_append_right _ _ _ _ hlen.le, hlen, Nat.sub_self,
        List.getD_cons_zero]
    rw [h3, hws3]
    omega
  · -- argv pointer table
    intro i hi
    have h4 := Eread (n + m + 1 - i) (by rw [hwslen]; omega)
    rw [show vmC.Reg SP - 8 * (n + m + 1 - i + 1) =
        p.MemSize - p.MemSize % 8 + 8 * (1 + i) by rw [hS2]; omega] at h4
    have hws4 : ws.getD (n + m + 1 - i) 0 = argvAddrs.getD (n - 1 - i) 0 := by
      rw [hwsdef, List.getD_append _ _ _ _ (by simp [hEAlen, hAAlen]; omega),
        show n + m + 1 - i = (n + m - i) + 1 by omega, List.getD_cons_succ,
        List.getD_append_right _ _ _ _ (by rw [hEAlen]; omega), hEAlen,
        show n + m - i - m = (n - 1 - i) + 1 by omega, List.getD_cons_succ]
    obtain ⟨hBaddr, hBbytes⟩ := Bk (n - 1 - i) (by rw [List.length_reverse]; omega)
    have haddr_ge : vmB.Reg SP ≤ argvAddrs.getD (n - 1 - i) 0 := by
      rw [hBaddr, Bsp]
      have := cstrLen_take_le argv.reverse (n - 1 - i + 1)
      omega
    have haddr_le : argvAddrs.getD (n - 1 - i) 0 < 2^64 := by
      rw [hBaddr, hAsp]
      omega
    rw [h4, hws4, Nat.mod_eq_of_lt haddr_le]
    intro jj hjj
    rw [Emem _ (Or.inr (by rw [hS2] at hCsp ⊢; omega)), hCmem]
    have := hBbytes jj (by
      rw [show n - 1 - i = argv.length - 1 - i from rfl, getD_reverse argv i (by omega)]
      exact hjj)
    rw [show n - 1 - i = argv.length - 1 - i from rfl, getD_reverse argv i (by omega)] at this
    exact this
  · -- null after argv table
    have h5 := Eread (m + 1) (by rw [hwslen]; omega)
    rw [show vmC.Reg SP - 8 * (m + 1 + 1) =
        p.MemSize - p.MemSize % 8 + 8 * (1 + n) by rw [hS2]; omega] at h5
    have hws5 : ws.getD (m + 1) 0 = 0 := by
      rw [hwsdef, List.getD_append _ _ _ _
          (by simp only [List.length_cons, List.length_append, hEAlen, hAAlen]; omega),
        List.getD_cons_succ, List.getD_append_right _ _ _ _ hEAlen.le,
        hEAlen, Nat.sub_self, List.getD_cons_zero]
    rw [show p.MemSize - p.MemSize % 8 + 8 * (1 + n) =
      p.MemSize - p.MemSize % 8 + 8 * (1 + argv.length) from rfl] at h5
    rw [h5, hws5]
    rfl
  · -- env pointer table
    intro j hj
    have h6 := Eread (m - j) (by rw [hwslen]; omega)
    rw [show vmC.Reg SP - 8 * (m - j + 1) =
        p.MemSize - p.MemSize % 8 + 8 * (n + 2 + j) by rw [hS2]; omega] at h6
    have hws6 : ws.getD (m - j) 0 = envAddrs.getD (m - 1 - j) 0 := by
      rw [hwsdef, List.getD_append _ _ _ _ (by simp [hEAlen, hAAlen]; omega),
        show m - j = (m - 1 - j) + 1 by omega, List.getD_cons_succ,
        List.getD_append _ _ _ _ (by rw [hEAlen]; omega)]
    obtain ⟨hAaddr, hAbytes⟩ := Ak (m - 1 - j) (by rw [List.length_reverse]; omega)
    have haddr_ge : vmA.Reg SP ≤ envAddrs.getD (m - 1 - j) 0 := by
      rw [hAaddr, Asp]
      have := cstrLen_take_le env.reverse (m - 1 - j + 1)
      omega
    have haddr_le : envAddrs.getD (m - 1 - j) 0 < 2^64 := by
      rw [hAaddr, hvm1sp]
      omega
    rw [h6, hws6, Nat.mod_eq_of_lt haddr_le]
    intro jj hjj
    rw [Emem _ (Or.inr (by rw [hS2] at hCsp ⊢; omega)), hCmem]
    rw [Bmem _ (by omega)]
    have := hAbytes jj (by
      rw [show m - 1 - j = env.length - 1 - j from rfl, getD_reverse env j (by omega)]
      exact hjj)
    rw [show m - 1 - j = env.length - 1 - j from rfl, getD_reverse env j (by omega)] at this
    exact this
  · -- final null
    have h7 := Eread 0 (by rw [hwslen]; omega)
    rw [show vmC.Reg SP - 8 * (0 + 1) =
        p.MemSize - p.MemSize % 8 + 8 * (n + m + 2) by rw [hS2]; omega] at h7
    have hws7 : ws.getD 0 0 = 0 := by
      rw [hwsdef, List.getD_append _ _ _ _ (by simp), List.getD_cons_zero]
    rw [show p.MemSize - p.MemSize % 8 + 8 * (n + m + 2) =
      p.MemSize - p.MemSize % 8 + 8 * (argv.length + env.length + 2) from rfl] at h7
    rw [h7, hws7]
    rfl

/-- C7 witness: at `a = 6`, `b = 7` (product non-negative) the amended
statement instantiates to the exact high word 0. -/
theorem C7_witness :
    mulh ⟨fun r => if r = 11 then 6 else if r = 12 then 7 else 0, fun _ => 0, 0, 0, [], 0⟩
        ⟨Fn.mulh, 11, 12, 10, 0, 0⟩ = HRes.ok
      ((⟨fun r => if r = 11 then 6 else if r = 12 then 7 else 0, fun _ => 0, 0, 0, [], 0⟩ : VM).store 10
        (if 0 ≤ toInt64 6 * toInt64 7 ∨ toInt64 6 * toInt64 7 % 2^64 = 0
         then ofInt64 (toInt64 6 * toInt64 7 / 2^64)
         else ofInt64 (toInt64 6 * toInt64 7 / 2^64 + 1))) {} :=
  C7_mulh_amended _ ⟨Fn.mulh, 11, 12, 10, 0, 0⟩ (by decide) (by decide)


/-- C9: for every `Prog` with non-nil Argv or Env (and a representable
adjusted memory size), after `NewVM` returns: `Reg[SP]` is a multiple of
8; the little-endian 64-bit word at `Reg[SP]` is argc; the words above it
are the addresses of the NUL-terminated copies of `Argv[0..argc-1]`, a
zero word, the addresses of the copies of `Env[0..len(Env)-1]`, and a
final zero word; each recorded address points at the string's bytes. -/
theorem C9_stack_pointer_table (p : Prog)
    (hne : ¬(p.Argv?.isNone ∧ p.Env?.isNone))
    (hsz : memSizeOf p < 2^64) :
    (NewVM p).Reg SP % 8 = 0 ∧
    readW (NewVM p).Mem ((NewVM p).Reg SP) = (p.Argv?.getD []).length ∧
    (∀ i, i < (p.Argv?.getD []).length →
        bytesAt (NewVM p).Mem
          (readW (NewVM p).Mem ((NewVM p).Reg SP + 8 * (1 + i)))
          ((p.Argv?.getD []).getD i [] ++ [0])) ∧
    readW (NewVM p).Mem ((NewVM p).Reg SP + 8 * (1 + (p.Argv?.getD []).length)) = 0 ∧
    (∀ j, j < (p.Env?.getD []).length →
        bytesAt (NewVM p).Mem
          (readW (NewVM p).Mem
            ((NewVM p).Reg SP + 8 * ((p.Argv?.getD []).length + 2 + j)))
          ((p.Env?.getD []).getD j [] ++ [0])) ∧
    readW (NewVM p).Mem
      ((NewVM p).Reg SP +
        8 * ((p.Argv?.getD []).length + (p.Env?.getD []).length + 2)) = 0 := by
  obtain ⟨h1, h2, h3, h4, h5, h6, h7⟩ := NewVM_layout p hne hsz
  refine ⟨?_, h3, h4, h5, h6, h7⟩
  rw [h2]
  omega

/-- C9 witness: `Argv = ["a"]`, `Env = []`, `MemSize = 100` — SP lands at
96, argc 1 sits there, the single argv pointer holds 132, where the bytes
`"a\0"` lie, and both null terminators are in place. -/
theorem C9_witness :
    (¬((some [[97]] : Option (List (List Nat))).isNone ∧
        (some ([] : List (List Nat))).isNone) ∧
      memSizeOf ⟨some [[97]], some [], 0, 100⟩ < 2^64) ∧
    ((NewVM ⟨some [[97]], some [], 0, 100⟩).Reg SP % 8 = 0 ∧
      readW (NewVM ⟨some [[97]], some [], 0, 100⟩).Mem
        ((NewVM ⟨some [[97]], some [], 0, 100⟩).Reg SP) = 1 ∧
      (∀ i, i < 1 →
          bytesAt (NewVM ⟨some [[97]], some [], 0, 100⟩).Mem
            (readW (NewVM ⟨some [[97]], some [], 0, 100⟩).Mem
              ((NewVM ⟨some [[97]], some [], 0, 100⟩).Reg SP + 8 * (1 + i)))
            ([[97]].getD i [] ++ [0])) ∧
      readW (NewVM ⟨some [[97]], some [], 0, 100⟩).Mem
        ((NewVM ⟨some [[97]], some [], 0, 100⟩).Reg SP + 8 * (1 + 1)) = 0 ∧
      (∀ j, j < 0 →
          bytesAt (NewVM ⟨some [[97]], some [], 0, 100⟩).Mem
            (readW (NewVM ⟨some [[97]], some [], 0, 100⟩).Mem
              ((NewVM ⟨some [[97]], some [], 0, 100⟩).Reg SP + 8 * (1 + 2 + j)))
            (([] : List (List Nat)).getD j [] ++ [0])) ∧
      readW (NewVM ⟨some [[97]], some [], 0, 100⟩).Mem
        ((NewVM ⟨some [[97]], some [], 0, 100⟩).Reg SP + 8 * (1 + 0 + 2)) = 0) :=
  ⟨⟨by decide, by decide⟩,
    C9_stack_pointer_table ⟨some [[97]], some [], 0, 100⟩ (by decide) (by decide)⟩

set_option maxRecDepth 4000 in
/-- C10 counterexample: `Argv = ["a"]`, `Env = []`, `MemSize = 100`.  The
enlarged memory is 134 bytes, but the final SP is 96 — far more than 7
bytes below the enlarged top.  SP is aligned down from the *requested*
`MemSize`, not from the enlarged size. -/
theorem C10_counterexample :
    (NewVM ⟨some [[97]], some [], 0, 100⟩).Mem.length = 134 ∧
    (NewVM ⟨some [[97]], some [], 0, 100⟩).Reg SP = 96 ∧
    ¬(134 - 7 ≤ 96) := by
  decide

/-- C10 (amended): with non-nil Argv or Env, `NewVM` allocates
`MemSize + Σ (len(s)+1) + 8·(len(Argv)+len(Env)+3)` bytes — strictly more
than the requested `MemSize` — and the final SP is the requested `MemSize`
aligned down to a multiple of 8 (so up to 7 bytes below `MemSize`, not
near the enlarged top). -/
theorem C10_memory_growth (p : Prog)
    (hne : ¬(p.Argv?.isNone ∧ p.Env?.isNone))
    (hsz : memSizeOf p < 2^64) :
    (NewVM p).Mem.length =
      p.MemSize + cstrLen (p.Argv?.getD []) + cstrLen (p.Env?.getD [])
        + 8 * ((p.Argv?.getD []).length + (p.Env?.getD []).length + 3) ∧
    p.MemSize < (NewVM p).Mem.length ∧
    (NewVM p).Reg SP = p.MemSize - p.MemSize % 8 := by
  obtain ⟨h1, h2, -, -, -, -, -⟩ := NewVM_layout p hne hsz
  refine ⟨?_, ?_, h2⟩
  · rw [h1, memSizeOf]
    omega
  · rw [h1, memSizeOf]
    omega

/-- C10 witness: the amended statement instantiated at the
counterexample's program: 134 = 100 + 2 + 0 + 32 bytes, SP = 96. -/
theorem C10_witness :
    (¬((some [[97]] : Option (List (List Nat))).isNone ∧
        (some ([] : List (List Nat))).isNone) ∧
      memSizeOf ⟨some [[97]], some [], 0, 100⟩ < 2^64) ∧
    ((NewVM ⟨some [[97]], some [], 0, 100⟩).Mem.length =
        100 + cstrLen [[97]] + cstrLen [] + 8 * (1 + 0 + 3) ∧
      100 < (NewVM ⟨some [[97]], some [], 0, 100⟩).Mem.length ∧
      (NewVM ⟨some [[97]], some [], 0, 100⟩).Reg SP = 100 - 100 % 8) :=
  ⟨⟨by decide, by decide⟩,
    C10_memory_growth ⟨some [[97]], some [], 0, 100⟩ (by decide) (by decide)⟩

end RiscvEmu
